import Mathlib

/-! # ffxiv-act-chat-translator: the line pipeline of `main.go`

A shallow embedding of `parseLine`, of the filter and emit loop of `main`, and of
`translate` with its cache and credential cursor.

Conventions of the embedding
* Go strings are Lean `String`s. `strings.Split(line, "|")` splits at every
  occurrence of the one-byte separator, which on text is the split of the character
  list at `'|'`.
* `time.Parse(layout, field)` belongs to the Go standard library. It is a parameter
  `timeParse : String → Except String Int` of the embedding: the parsed instant, as
  an integer count of time units, or the error of the library. `Time.Before` is `<`
  on instants, and `now` is an instant in the same unit.
* A Go run-time panic (index out of range) is the explicit result `Run.panic`.
* The remote service is a function of the requests sent so far (the last one being
  the request it answers), so that every behaviour of the service, also a stateful
  one, is one such function.
* The package-level variables `translateCache` and `secretIdx`, the requests sent and
  the text printed on standard output are the fields of the explicit state `World`.
-/

set_option autoImplicit false

namespace ChatTranslator

/-! ## Results of Go code -/

deriving instance DecidableEq for Except

/-- The result of running a piece of Go code that may index a slice: either the
run-time panic of an out-of-range index, or a value. -/
inductive Run (α : Type) where
  | panic : Run α
  | done : α → Run α
  deriving DecidableEq, Repr

/-- Slice indexing `s[i]`: panics when `i` is out of range. -/
def index {α : Type} (s : List α) (i : Nat) : Run α :=
  match s[i]? with
  | none => Run.panic
  | some a => Run.done a

/-! ## Line parser -/

/-- The struct `Log` of `main.go`. -/
structure Log where
  Timestamp : Int
  LogCode : String
  ActorName : String
  Content : String
  deriving DecidableEq, Repr

/-- The call `strings.Split(line, "|")`. -/
def splitBar (line : String) : List String :=
  (line.data.splitOn '|').map String.mk

/-- The function `parseLine` of `main.go`. The error of a line with fewer than five
fields is `fmt.Errorf("invalid line: %s", line)`; the error of a timestamp that does
not parse is the error returned by `time.Parse`. -/
def parseLine (timeParse : String → Except String Int) (line : String) :
    Run (Except String Log) :=
  let s := splitBar line
  if s.length < 5 then
    Run.done (Except.error ("invalid line: " ++ line))
  else
    match index s 1 with
    | Run.panic => Run.panic
    | Run.done f1 =>
      match timeParse f1 with
      | Except.error err => Run.done (Except.error err)
      | Except.ok t =>
        match index s 2, index s 3, index s 4 with
        | Run.done f2, Run.done f3, Run.done f4 =>
          Run.done (Except.ok { Timestamp := t, LogCode := f2, ActorName := f3, Content := f4 })
        | _, _, _ => Run.panic

/-! ## Configuration, credentials, requests and responses -/

/-- The struct `ConfigStruct` of `main.go`, as filled in from the environment. -/
structure ConfigStruct where
  LogDirectory : String
  TargetChatCodes : List String
  SecretFileName : String
  SourceLanguage : String
  TargetLanguage : String
  TranslateActorName : Bool
  deriving DecidableEq, Repr

/-- The struct `Secret` of `main.go`: one credential. -/
structure Secret where
  ClientId : String
  ClientSecret : String
  deriving DecidableEq, Repr

/-- The struct `PapagoResponse` of `main.go`, after `json.Unmarshal`: a field that is
absent from the JSON text is the empty string. -/
structure PapagoResponse where
  TranslatedText : String
  ErrorMsg : String
  ErrorCode : String
  deriving DecidableEq, Repr

/-- The POST request that `translate` hands to `httpClient.Do`: the three headers it
sets, and the body. Method and endpoint are constants of the program. -/
structure Request where
  contentType : String
  clientId : String
  clientSecret : String
  body : String
  deriving DecidableEq, Repr

/-- What comes back from sending one request: `httpClient.Do` fails, `io.ReadAll`
fails, `json.Unmarshal` fails, or a response is decoded. -/
inductive Outcome where
  | doError (err : String)
  | readError (err : String)
  | decodeError (err : String)
  | response (r : PapagoResponse)
  deriving DecidableEq, Repr

/-- The remote service, as seen by the program: the outcome of the last request of
the list, given all requests sent before it. -/
abbrev Service := List Request → Outcome

/-- The package-level state that `translate` reads and writes (`translateCache`,
`secretIdx`), with the requests handed to `httpClient.Do` so far. -/
structure World where
  cache : List (String × String)
  secretIdx : Nat
  sent : List Request
  deriving DecidableEq, Repr

/-- The read `translateCache[content]` with its `ok` flag. -/
def cacheLookup (cache : List (String × String)) (content : String) : Option String :=
  cache.lookup content

/-- The assignment `translateCache[content] = result`: the entry of `content` is set,
the entries of the other keys stay. -/
def cacheStore (cache : List (String × String)) (content result : String) :
    List (String × String) :=
  (content, result) :: cache.filter (fun e => e.1 != content)

/-- The call `strings.Contains(s, sub)`. -/
def stringsContains (s sub : String) : Bool :=
  s.data.tails.any (fun t => sub.data.isPrefixOf t)

/-- The body `fmt.Sprintf("source=%s&target=%s&text=%s", ...)` built by `translate`. -/
def requestBody (cfg : ConfigStruct) (content : String) : String :=
  "source=" ++ cfg.SourceLanguage ++ "&target=" ++ cfg.TargetLanguage ++ "&text=" ++ content

/-- The request built by `translate` for `content` with the credential `secret`. -/
def buildRequest (cfg : ConfigStruct) (secret : Secret) (content : String) : Request :=
  { contentType := "application/x-www-form-urlencoded; charset=UTF-8"
    clientId := secret.ClientId
    clientSecret := secret.ClientSecret
    body := requestBody cfg content }

/-! ## Translator -/

/-- How a call of `translate` ends: with the pair `(string, error)` it returns, with
the panic of `secrets[*secretIdx]` out of range, or, in the model only, with the
recursion budget used up. -/
inductive Ret where
  | noFuel
  | panic
  | value (translated : String) (err : Option String)
  deriving DecidableEq, Repr

/-- The function `translate` of `main.go`, with a budget for its recursive call.
`http.NewRequest` cannot fail on the constant method and endpoint, so that branch is
not modelled. -/
def translateFuel (cfg : ConfigStruct) (svc : Service) (secrets : List Secret)
    (content : String) : Nat → World → Ret × World
  | 0, w => (Ret.noFuel, w)
  | fuel + 1, w =>
    if content = "" then (Ret.value "" none, w)
    else
      match cacheLookup w.cache content with
      | some translated => (Ret.value translated none, w)
      | none =>
        match index secrets w.secretIdx with
        | Run.panic => (Ret.panic, w)
        | Run.done secret =>
          let w1 : World := { w with sent := w.sent ++ [buildRequest cfg secret content] }
          match svc w1.sent with
          | Outcome.doError err => (Ret.value "" (some err), w1)
          | Outcome.readError err => (Ret.value "" (some err), w1)
          | Outcome.decodeError err => (Ret.value "" (some err), w1)
          | Outcome.response papagoResp =>
            if papagoResp.ErrorMsg ≠ "" then
              if stringsContains papagoResp.ErrorMsg "exceeded" then
                translateFuel cfg svc secrets content fuel
                  { w1 with secretIdx := w1.secretIdx + 1 }
              else (Ret.value "" (some ("papago error: " ++ papagoResp.ErrorMsg)), w1)
            else
              (Ret.value papagoResp.TranslatedText none,
                { w1 with cache := cacheStore w1.cache content papagoResp.TranslatedText })

/-- The function `translate` of `main.go`: every recursive call is made with the
cursor one further and the cursor is read in range before it, so one more call than
there are credentials from the cursor on is budget enough. -/
def translate (cfg : ConfigStruct) (svc : Service) (secrets : List Secret)
    (content : String) (w : World) : Ret × World :=
  translateFuel cfg svc secrets content (secrets.length - w.secretIdx + 1) w

/-! ## Pipeline driver -/

/-- The state of the process in the loop of `main`: the translator state, the text
written to standard output, one element per `fmt.Printf`, and the arguments of the
calls of `translate` made by `main`, in order. -/
structure Proc where
  world : World
  out : List String
  called : List String
  deriving DecidableEq, Repr

/-- Whether the process is still in the loop after a line. -/
inductive Status where
  | running
  | panicked
  | noFuel
  deriving DecidableEq, Repr

/-- The loop of `main` over `Config.TargetChatCodes` that sets `foundChatCode`. -/
def foundChatCode (targetChatCodes : List String) (logCode : String) : Bool :=
  match targetChatCodes with
  | [] => false
  | targetChatCode :: rest =>
    if logCode = targetChatCode then true else foundChatCode rest logCode

/-- A call `translate(secret, &secretIdx, content)` made by `main`. -/
def callTranslate (cfg : ConfigStruct) (svc : Service) (secrets : List Secret)
    (content : String) (p : Proc) : Ret × Proc :=
  let r := translate cfg svc secrets content p.world
  (r.1, { p with world := r.2, called := p.called ++ [content] })

/-- The first half of the translate part of the loop body of `main`: the choice of
`actor`, by a call of `translate` on the actor name when `Config.TranslateActorName`
is set, with the untranslated name when that call returns an error. -/
def actorStep (cfg : ConfigStruct) (svc : Service) (secrets : List Secret)
    (l : Log) (p : Proc) : Status × String × Proc :=
  if cfg.TranslateActorName then
    match callTranslate cfg svc secrets l.ActorName p with
    | (Ret.value translated none, p1) => (Status.running, translated, p1)
    | (Ret.value _ (some _), p1) => (Status.running, l.ActorName, p1)
    | (Ret.panic, p1) => (Status.panicked, "", p1)
    | (Ret.noFuel, p1) => (Status.noFuel, "", p1)
  else (Status.running, l.ActorName, p)

/-- The second half: the call of `translate` on the content, whose error is logged
and not otherwise used, and `fmt.Printf("%s: %s\n\n", actor, translated)`. -/
def contentStep (cfg : ConfigStruct) (svc : Service) (secrets : List Secret)
    (l : Log) (actor : String) (p : Proc) : Status × Proc :=
  match callTranslate cfg svc secrets l.Content p with
  | (Ret.value translated _, p2) =>
    (Status.running, { p2 with out := p2.out ++ [actor ++ ": " ++ translated ++ "\n\n"] })
  | (Ret.panic, p2) => (Status.panicked, p2)
  | (Ret.noFuel, p2) => (Status.noFuel, p2)

/-- The part of the loop body of `main` from `// translate` on, for a parsed line
that passed the two filters. -/
def emitLog (cfg : ConfigStruct) (svc : Service) (secrets : List Secret)
    (l : Log) (p : Proc) : Status × Proc :=
  match actorStep cfg svc secrets l p with
  | (Status.running, actor, p1) => contentStep cfg svc secrets l actor p1
  | (st, _, p1) => (st, p1)

/-- The body of the loop `for line := range t.Lines` of `main`, for one line; `now`
is the instant taken by `time.Now()` before the loop. -/
def mainStep (cfg : ConfigStruct) (timeParse : String → Except String Int) (svc : Service)
    (secrets : List Secret) (now : Int) (p : Proc) (line : String) : Status × Proc :=
  match parseLine timeParse line with
  | Run.panic => (Status.panicked, p)
  | Run.done (Except.error _) => (Status.running, p)
  | Run.done (Except.ok l) =>
    if l.Timestamp < now then (Status.running, p)
    else if !foundChatCode cfg.TargetChatCodes l.LogCode then (Status.running, p)
    else emitLog cfg svc secrets l p

/-- The loop of `main` over the lines delivered so far; it stops at a panic. -/
def mainLoop (cfg : ConfigStruct) (timeParse : String → Except String Int) (svc : Service)
    (secrets : List Secret) (now : Int) : Proc → List String → Status × Proc
  | p, [] => (Status.running, p)
  | p, line :: rest =>
    match mainStep cfg timeParse svc secrets now p line with
    | (Status.running, p1) => mainLoop cfg timeParse svc secrets now p1 rest
    | stopped => stopped

/-! ## Runs of the translator

What a run of `translate` is measured against: the answers that count as out of
quota, the requests of a call that goes through the credentials in order, a sequence
of calls, and where the entries of the cache come from. -/

/-- Whether an outcome is a response that `translate` takes for out of quota: its
error message contains `exceeded`. -/
def isQuota (o : Outcome) : Bool :=
  match o with
  | Outcome.response papagoResp => stringsContains papagoResp.ErrorMsg "exceeded"
  | _ => false

/-- The number of out-of-quota answers among the answers to the requests `new`, sent
one after the other after the requests `before`. -/
def quotaAnswers (svc : Service) (before : List Request) : List Request → Nat
  | [] => 0
  | req :: rest =>
    (if isQuota (svc (before ++ [req])) then 1 else 0) +
      quotaAnswers svc (before ++ [req]) rest

/-- The requests for `text` made with the `m` credentials from index `i` on, one per
credential, in the order of the list. -/
def requestsFrom (cfg : ConfigStruct) (secrets : List Secret) (text : String)
    (i m : Nat) : List Request :=
  ((secrets.drop i).take m).map (fun secret => buildRequest cfg secret text)

/-- A sequence of calls of `translate`, one per text, each on the state left by the
one before; a panic ends the process, so the calls after it are not made. -/
def translateMany (cfg : ConfigStruct) (svc : Service) (secrets : List Secret) :
    World → List String → World
  | w, [] => w
  | w, text :: rest =>
    match translate cfg svc secrets text w with
    | (Ret.value _ _, w1) => translateMany cfg svc secrets w1 rest
    | (_, w1) => w1

/-- The entries of the cache are justified by the requests sent: no key is empty, and
every entry `(k, v)` goes back to a request for the text `k`, among the requests
sent, that was answered with a response without error message whose translated text
is `v`. -/
def CacheJustified (cfg : ConfigStruct) (svc : Service) (secrets : List Secret)
    (w : World) : Prop :=
  ∀ k v, (k, v) ∈ w.cache →
    k ≠ "" ∧
    ∃ (before : List Request) (secret : Secret) (papagoResp : PapagoResponse),
      secret ∈ secrets ∧
      (before ++ [buildRequest cfg secret k]) <+: w.sent ∧
      svc (before ++ [buildRequest cfg secret k]) = Outcome.response papagoResp ∧
      papagoResp.ErrorMsg = "" ∧ papagoResp.TranslatedText = v

/-! ## Decoding of a form body

The receiving side of `application/x-www-form-urlencoded`, the content type that
`translate` declares for its body. It is not part of `main.go`; it is the reference
against which the body built by `requestBody` is read. -/

/-- The value of a hexadecimal digit. -/
def unhex (c : Char) : Option Nat :=
  if '0' ≤ c ∧ c ≤ '9' then some (c.toNat - '0'.toNat)
  else if 'a' ≤ c ∧ c ≤ 'f' then some (c.toNat - 'a'.toNat + 10)
  else if 'A' ≤ c ∧ c ≤ 'F' then some (c.toNat - 'A'.toNat + 10)
  else none

/-- Decoding of one key or value of a form body: `+` is a space, `%XY` is the
character with the hexadecimal code `XY` (codes below `%80`; the texts decoded here
have no escape of a longer character), and a `%` that is not followed by two
hexadecimal digits makes the body invalid. -/
def formUnescape : List Char → Option (List Char)
  | [] => some []
  | c :: rest =>
    if c = '%' then
      match rest with
      | a :: b :: rest2 =>
        match unhex a, unhex b, formUnescape rest2 with
        | some x, some y, some r => some (Char.ofNat (16 * x + y) :: r)
        | _, _, _ => none
      | _ => none
    else if c = '+' then (formUnescape rest).map (fun r => ' ' :: r)
    else (formUnescape rest).map (fun r => c :: r)

/-- Decoding of the `key=value` pieces of a form body, in order. -/
def formPairs : List (List Char) → Option (List (String × String))
  | [] => some []
  | piece :: rest =>
    match formUnescape (piece.takeWhile (fun c => c != '=')),
      formUnescape ((piece.dropWhile (fun c => c != '=')).drop 1), formPairs rest with
    | some k, some v, some kvs => some ((String.mk k, String.mk v) :: kvs)
    | _, _, _ => none

/-- Decoding of a form body: the pieces between `&`, the empty ones left out, each
split at its first `=` and unescaped. -/
def formDecode (body : String) : Option (List (String × String)) :=
  formPairs ((body.data.splitOn '&').filter (fun piece => !piece.isEmpty))

/-! ## Sample instances, for evaluating the definitions on concrete inputs -/

/-- A stand-in for `time.Parse` with the layout of `parseLine`: it accepts the text
of 33 characters with digits and separators at the places of the layout and returns
the digits of date, time and fraction read as one number (the offset is not applied). -/
def sampleTimeParse (field : String) : Except String Int :=
  let cs := field.data
  let shape : List Char := "dddd-dd-ddTdd:dd:dd.ddddddd+dd:dd".data
  let fits (pc : Char × Char) : Bool :=
    if pc.1 = 'd' then pc.2.isDigit
    else if pc.1 = '+' then pc.2 = '+' || pc.2 = '-'
    else pc.1 = pc.2
  if cs.length = shape.length ∧ (shape.zip cs).all fits then
    Except.ok (Int.ofNat (((cs.take 27).filter Char.isDigit).foldl
      (fun acc c => 10 * acc + (c.toNat - '0'.toNat)) 0))
  else Except.error ("parsing time \"" ++ field ++ "\": does not match the layout")

/-- The example line of the comment at the head of `main.go`, in ASCII. -/
def sampleLine : String :=
  "00|2022-10-22T20:13:42.0000000+09:00|003D|Name|Hello there.|abc123"

/-- A configuration with the defaults of `ConfigStruct` and one target chat code. -/
def sampleConfig : ConfigStruct :=
  { LogDirectory := "logs", TargetChatCodes := ["003D"], SecretFileName := "secret.json"
    SourceLanguage := "ja", TargetLanguage := "ko", TranslateActorName := false }

/-- Two credentials. -/
def sampleSecrets : List Secret :=
  [{ ClientId := "id0", ClientSecret := "key0" }, { ClientId := "id1", ClientSecret := "key1" }]

/-- A service that answers every request with the translation `T`. -/
def sampleServiceOk : Service :=
  fun _ => Outcome.response { TranslatedText := "T", ErrorMsg := "", ErrorCode := "" }

/-- A service whose first answer is lost in transport and that answers every later
request with the translation `T`. -/
def sampleServiceFlaky : Service :=
  fun sent =>
    if sent.length ≤ 1 then Outcome.doError "context deadline exceeded"
    else Outcome.response { TranslatedText := "T", ErrorMsg := "", ErrorCode := "" }

/-- A service for which every credential is out of quota. -/
def sampleServiceQuota : Service :=
  fun _ => Outcome.response
    { TranslatedText := "", ErrorMsg := "Query limit exceeded", ErrorCode := "010" }

/-- A service for which the credential `id0` is out of quota and that answers the
requests of every other credential with the translation `T`. -/
def sampleServiceRotate : Service :=
  fun sent =>
    match sent.getLast? with
    | none => Outcome.doError "no request"
    | some req =>
      if req.clientId = "id0" then
        Outcome.response
          { TranslatedText := "", ErrorMsg := "Query limit exceeded", ErrorCode := "010" }
      else Outcome.response { TranslatedText := "T", ErrorMsg := "", ErrorCode := "" }

/-- A service that answers with an error that is not about quota. -/
def sampleServiceError : Service :=
  fun _ => Outcome.response
    { TranslatedText := "", ErrorMsg := "Unsupported source language", ErrorCode := "N2MT04" }

/-- A service that answers with an error code and no error message. -/
def sampleServiceCodeOnly : Service :=
  fun _ => Outcome.response { TranslatedText := "", ErrorMsg := "", ErrorCode := "N2MT99" }

/-- The state of a process that has just started. -/
def initWorld : World := { cache := [], secretIdx := 0, sent := [] }

/-- The state of the loop of `main` before the first line. -/
def initProc : Proc := { world := initWorld, out := [], called := [] }

/-! ## Line parser: lemmas -/

theorem parseLine_short (timeParse : String → Except String Int) (line : String)
    (h : (splitBar line).length < 5) :
    parseLine timeParse line = Run.done (Except.error ("invalid line: " ++ line)) := by
  simp [parseLine, h]

theorem parseLine_long (timeParse : String → Except String Int) (line : String)
    (f0 f1 f2 f3 f4 : String) (rest : List String)
    (h : splitBar line = f0 :: f1 :: f2 :: f3 :: f4 :: rest) :
    parseLine timeParse line =
      match timeParse f1 with
      | Except.error err => Run.done (Except.error err)
      | Except.ok t =>
        Run.done (Except.ok { Timestamp := t, LogCode := f2, ActorName := f3, Content := f4 }) := by
  simp only [parseLine, h, index]
  simp

theorem fields_of_length {α : Type} (s : List α) (h : ¬ s.length < 5) :
    ∃ f0 f1 f2 f3 f4 rest, s = f0 :: f1 :: f2 :: f3 :: f4 :: rest := by
  match s, h with
  | f0 :: f1 :: f2 :: f3 :: f4 :: rest, _ => exact ⟨f0, f1, f2, f3, f4, rest, rfl⟩
  | [], h => simp at h
  | [_], h => simp at h
  | [_, _], h => simp at h
  | [_, _, _], h => simp at h
  | [_, _, _, _], h => simp at h

theorem parseLine_ok_iff (timeParse : String → Except String Int) (line : String) (l : Log) :
    parseLine timeParse line = Run.done (Except.ok l) ↔
      ∃ f0 f1 f2 f3 f4 rest, splitBar line = f0 :: f1 :: f2 :: f3 :: f4 :: rest ∧
        timeParse f1 = Except.ok l.Timestamp ∧ l.LogCode = f2 ∧ l.ActorName = f3 ∧
        l.Content = f4 := by
  constructor
  · intro h
    by_cases hlen : (splitBar line).length < 5
    · rw [parseLine_short timeParse line hlen] at h
      simp at h
    · obtain ⟨f0, f1, f2, f3, f4, rest, hs⟩ := fields_of_length _ hlen
      refine ⟨f0, f1, f2, f3, f4, rest, hs, ?_⟩
      rw [parseLine_long timeParse line f0 f1 f2 f3 f4 rest hs] at h
      cases ht : timeParse f1 with
      | error err => rw [ht] at h; simp at h
      | ok t =>
        rw [ht] at h
        simp only [Run.done.injEq, Except.ok.injEq] at h
        subst h
        exact ⟨rfl, rfl, rfl, rfl⟩
  · rintro ⟨f0, f1, f2, f3, f4, rest, hs, ht, h2, h3, h4⟩
    rw [parseLine_long timeParse line f0 f1 f2 f3 f4 rest hs, ht]
    cases l
    simp_all

/-- C1: an accepted line gives the event whose fields are, by position in the
`|`-split of the line, field 1 parsed as the timestamp, field 2 as `LogCode`, field
3 as `ActorName` and field 4 as `Content`, unmodified; and two accepted lines whose
splits agree at the indices 1 to 4 give the same event, whatever their field 0 and
their fields from index 5 on are. -/
theorem parseLine_positional (timeParse : String → Except String Int) (line : String)
    (l : Log) (h : parseLine timeParse line = Run.done (Except.ok l)) :
    (∃ f0 f1 f2 f3 f4 rest, splitBar line = f0 :: f1 :: f2 :: f3 :: f4 :: rest ∧
        timeParse f1 = Except.ok l.Timestamp ∧ l.LogCode = f2 ∧ l.ActorName = f3 ∧
        l.Content = f4) ∧
    (∀ (line2 : String) (l2 : Log), parseLine timeParse line2 = Run.done (Except.ok l2) →
        (∀ i, 1 ≤ i → i ≤ 4 → (splitBar line2)[i]? = (splitBar line)[i]?) → l2 = l) := by
  have h1 := (parseLine_ok_iff timeParse line l).mp h
  refine ⟨h1, ?_⟩
  intro line2 l2 hp2 hagree
  obtain ⟨f0, f1, f2, f3, f4, rest, hs, ht, hc, ha, hn⟩ := h1
  obtain ⟨g0, g1, g2, g3, g4, rest2, hs2, ht2, hc2, ha2, hn2⟩ :=
    (parseLine_ok_iff timeParse line2 l2).mp hp2
  have e1 := hagree 1 (by decide) (by decide)
  have e2 := hagree 2 (by decide) (by decide)
  have e3 := hagree 3 (by decide) (by decide)
  have e4 := hagree 4 (by decide) (by decide)
  rw [hs, hs2] at e1 e2 e3 e4
  simp at e1 e2 e3 e4
  subst e1 e2 e3 e4
  rw [ht] at ht2
  cases l; cases l2
  simp_all

/-- The witness of C1 is the example line of `main.go`. -/
theorem parseLine_positional_witness :
    parseLine sampleTimeParse sampleLine =
      Run.done (Except.ok ⟨202210222013420000000, "003D", "Name", "Hello there."⟩) ∧
    (∃ f0 f1 f2 f3 f4 rest, splitBar sampleLine = f0 :: f1 :: f2 :: f3 :: f4 :: rest ∧
        sampleTimeParse f1 = Except.ok 202210222013420000000 ∧ "003D" = f2 ∧ "Name" = f3 ∧
        "Hello there." = f4) ∧
    (∀ (line2 : String) (l2 : Log),
        parseLine sampleTimeParse line2 = Run.done (Except.ok l2) →
        (∀ i, 1 ≤ i → i ≤ 4 → (splitBar line2)[i]? = (splitBar sampleLine)[i]?) →
        l2 = ⟨202210222013420000000, "003D", "Name", "Hello there."⟩) :=
  ⟨by decide, parseLine_positional sampleTimeParse sampleLine
    ⟨202210222013420000000, "003D", "Name", "Hello there."⟩ (by decide)⟩

/-- The split of a line made of fields without `|`, joined by `|`, is the list of
the fields: `splitBar` is the inverse of the way a log line is written. -/
theorem splitBar_join (fields : List String) (hne : fields ≠ [])
    (hbar : ∀ f ∈ fields, '|' ∉ f.data) :
    splitBar (String.mk (['|'].intercalate (fields.map String.data))) = fields := by
  unfold splitBar
  have h := List.splitOn_intercalate (fields.map String.data) '|'
    (by
      intro l hl
      obtain ⟨f, hf, rfl⟩ := List.mem_map.mp hl
      exact hbar f hf)
    (by simpa using hne)
  simp only [h, List.map_map]
  exact (List.map_congr_left (fun f _ => rfl)).trans (List.map_id _)

/-- C2: `parseLine` never panics; it returns the error `invalid line: ...` for every
line with fewer than five fields, the error of the time parser for every line with at
least five fields whose field 1 does not parse, and it returns an event exactly when
the line has at least five fields and its field 1 parses. -/
theorem parseLine_total (timeParse : String → Except String Int) (line : String) :
    parseLine timeParse line ≠ Run.panic ∧
    ((splitBar line).length < 5 →
      parseLine timeParse line = Run.done (Except.error ("invalid line: " ++ line))) ∧
    (∀ f1 err, 5 ≤ (splitBar line).length → (splitBar line)[1]? = some f1 →
      timeParse f1 = Except.error err →
      parseLine timeParse line = Run.done (Except.error err)) ∧
    ((∃ l, parseLine timeParse line = Run.done (Except.ok l)) ↔
      5 ≤ (splitBar line).length ∧
        ∃ f1 t, (splitBar line)[1]? = some f1 ∧ timeParse f1 = Except.ok t) := by
  by_cases hlen : (splitBar line).length < 5
  · have hp := parseLine_short timeParse line hlen
    refine ⟨by rw [hp]; simp, fun _ => hp, ?_, ?_⟩
    · intro f1 err h5
      omega
    · rw [hp]
      constructor
      · rintro ⟨l, hl⟩
        simp at hl
      · rintro ⟨h5, _⟩
        omega
  · obtain ⟨f0, f1, f2, f3, f4, rest, hs⟩ := fields_of_length _ hlen
    have hp := parseLine_long timeParse line f0 f1 f2 f3 f4 rest hs
    refine ⟨?_, fun h => absurd h hlen, ?_, ?_⟩
    · rw [hp]
      cases timeParse f1 <;> simp
    · intro g1 err _ hg ht
      rw [hs] at hg
      simp at hg
      subst hg
      rw [hp, ht]
    · rw [hp, hs]
      cases ht : timeParse f1 with
      | error err =>
        simp
        intro t hg
        rw [ht] at hg
        simp at hg
      | ok t =>
        simp [ht]

/-- C2 at concrete lines: the empty line and a line of four fields are malformed, a
line of five fields with a bad timestamp gives the parser's error, and the example
line of `main.go` is accepted. -/
theorem parseLine_total_witness :
    parseLine sampleTimeParse "" = Run.done (Except.error "invalid line: ") ∧
    parseLine sampleTimeParse "00|x|003D|Name" =
      Run.done (Except.error "invalid line: 00|x|003D|Name") ∧
    parseLine sampleTimeParse "00|x|003D|Name|Hi" =
      Run.done (Except.error "parsing time \"x\": does not match the layout") ∧
    (∃ l, parseLine sampleTimeParse sampleLine = Run.done (Except.ok l)) :=
  ⟨(parseLine_total sampleTimeParse "").2.1 (by decide),
   (parseLine_total sampleTimeParse "00|x|003D|Name").2.1 (by decide),
   (parseLine_total sampleTimeParse "00|x|003D|Name|Hi").2.2.1 "x" _ (by decide) (by decide)
     (by decide),
   (parseLine_total sampleTimeParse sampleLine).2.2.2.mpr
     ⟨by decide, "2022-10-22T20:13:42.0000000+09:00", 202210222013420000000, by decide,
      by decide⟩⟩

/-! ## Driver: lemmas -/

theorem foundChatCode_iff (targetChatCodes : List String) (logCode : String) :
    foundChatCode targetChatCodes logCode = true ↔ logCode ∈ targetChatCodes := by
  induction targetChatCodes with
  | nil => simp [foundChatCode]
  | cons c rest ih =>
    unfold foundChatCode
    by_cases h : logCode = c
    · simp [h]
    · simp [h, ih]

theorem mainStep_parsed (cfg : ConfigStruct) (timeParse : String → Except String Int)
    (svc : Service) (secrets : List Secret) (now : Int) (p : Proc) (line : String) (l : Log)
    (hparse : parseLine timeParse line = Run.done (Except.ok l)) :
    mainStep cfg timeParse svc secrets now p line =
      if l.Timestamp < now then (Status.running, p)
      else if !foundChatCode cfg.TargetChatCodes l.LogCode then (Status.running, p)
      else emitLog cfg svc secrets l p := by
  simp only [mainStep, hparse]

theorem callTranslate_called (cfg : ConfigStruct) (svc : Service) (secrets : List Secret)
    (content : String) (p : Proc) :
    (callTranslate cfg svc secrets content p).2.called = p.called ++ [content] := rfl

theorem callTranslate_out (cfg : ConfigStruct) (svc : Service) (secrets : List Secret)
    (content : String) (p : Proc) :
    (callTranslate cfg svc secrets content p).2.out = p.out := rfl

theorem actorStep_called (cfg : ConfigStruct) (svc : Service) (secrets : List Secret)
    (l : Log) (p : Proc) :
    p.called.length ≤ (actorStep cfg svc secrets l p).2.2.called.length := by
  unfold actorStep
  by_cases ha : cfg.TranslateActorName = true
  · simp only [ha, if_true]
    have hc := callTranslate_called cfg svc secrets l.ActorName p
    generalize callTranslate cfg svc secrets l.ActorName p = r at hc
    obtain ⟨ret, p1⟩ := r
    simp only at hc
    cases ret with
    | noFuel => simp [hc]
    | panic => simp [hc]
    | value t e => cases e <;> simp [hc]
  · simp [ha]

theorem contentStep_called (cfg : ConfigStruct) (svc : Service) (secrets : List Secret)
    (l : Log) (actor : String) (p : Proc) :
    (contentStep cfg svc secrets l actor p).2.called = p.called ++ [l.Content] := by
  unfold contentStep
  have hc := callTranslate_called cfg svc secrets l.Content p
  generalize callTranslate cfg svc secrets l.Content p = r at hc
  obtain ⟨ret, p2⟩ := r
  simp only at hc
  cases ret <;> simp [hc]

/-- C3: the filter of the loop accepts a code exactly when it is an element of the
configured list; a parsed event whose code is not in the list leaves the process as it
was (no call of `translate`, no request, no output), so does every event when the list
is empty; and an event that is not too old and whose code is in the list goes on to
the translate part of the loop body. -/
theorem chatCode_filter (cfg : ConfigStruct) (timeParse : String → Except String Int)
    (svc : Service) (secrets : List Secret) (now : Int) (p : Proc) (line : String) (l : Log)
    (hparse : parseLine timeParse line = Run.done (Except.ok l)) :
    (∀ (codes : List String) (code : String),
      foundChatCode codes code = true ↔ code ∈ codes) ∧
    (l.LogCode ∉ cfg.TargetChatCodes →
      mainStep cfg timeParse svc secrets now p line = (Status.running, p)) ∧
    (cfg.TargetChatCodes = [] →
      mainStep cfg timeParse svc secrets now p line = (Status.running, p)) ∧
    (l.LogCode ∈ cfg.TargetChatCodes → ¬ l.Timestamp < now →
      mainStep cfg timeParse svc secrets now p line = emitLog cfg svc secrets l p) := by
  have hstep := mainStep_parsed cfg timeParse svc secrets now p line l hparse
  have hnot : l.LogCode ∉ cfg.TargetChatCodes →
      mainStep cfg timeParse svc secrets now p line = (Status.running, p) := by
    intro hmem
    have hf : foundChatCode cfg.TargetChatCodes l.LogCode = false := by
      cases hfc : foundChatCode cfg.TargetChatCodes l.LogCode with
      | false => rfl
      | true => exact absurd ((foundChatCode_iff _ _).mp hfc) hmem
    rw [hstep, hf]
    simp
  refine ⟨foundChatCode_iff, hnot, ?_, ?_⟩
  · intro hnil
    apply hnot
    rw [hnil]
    simp
  · intro hmem hts
    rw [hstep, (foundChatCode_iff _ _).mpr hmem]
    simp [hts]

/-- C3 on the example line of `main.go`: with the target code `003d` in lower case,
with the prefix `003` and with no target code the line is dropped; with `003D` it is
translated. -/
theorem chatCode_filter_witness :
    mainStep { sampleConfig with TargetChatCodes := ["003d", "003", "003D0", "*"] }
      sampleTimeParse sampleServiceOk sampleSecrets 0 initProc sampleLine
      = (Status.running, initProc) ∧
    mainStep { sampleConfig with TargetChatCodes := [] }
      sampleTimeParse sampleServiceOk sampleSecrets 0 initProc sampleLine
      = (Status.running, initProc) ∧
    mainStep sampleConfig sampleTimeParse sampleServiceOk sampleSecrets 0 initProc sampleLine
      = emitLog sampleConfig sampleServiceOk sampleSecrets
          ⟨202210222013420000000, "003D", "Name", "Hello there."⟩ initProc :=
  ⟨(chatCode_filter { sampleConfig with TargetChatCodes := ["003d", "003", "003D0", "*"] }
      sampleTimeParse sampleServiceOk sampleSecrets 0 initProc sampleLine
      ⟨202210222013420000000, "003D", "Name", "Hello there."⟩ (by decide)).2.1 (by decide),
   (chatCode_filter { sampleConfig with TargetChatCodes := [] }
      sampleTimeParse sampleServiceOk sampleSecrets 0 initProc sampleLine
      ⟨202210222013420000000, "003D", "Name", "Hello there."⟩ (by decide)).2.2.1 rfl,
   (chatCode_filter sampleConfig
      sampleTimeParse sampleServiceOk sampleSecrets 0 initProc sampleLine
      ⟨202210222013420000000, "003D", "Name", "Hello there."⟩ (by decide)).2.2.2
      (by decide) (by decide)⟩

theorem actorStep_stopped (cfg : ConfigStruct) (svc : Service) (secrets : List Secret)
    (l : Log) (p : Proc) (h : (actorStep cfg svc secrets l p).1 ≠ Status.running) :
    p.called.length < (actorStep cfg svc secrets l p).2.2.called.length := by
  unfold actorStep at h ⊢
  by_cases ha : cfg.TranslateActorName = true
  · simp only [ha, if_true] at h ⊢
    have hc := callTranslate_called cfg svc secrets l.ActorName p
    generalize callTranslate cfg svc secrets l.ActorName p = r at hc h
    obtain ⟨ret, p1⟩ := r
    simp only at hc
    cases ret with
    | noFuel => simp [hc]
    | panic => simp [hc]
    | value t e => cases e <;> simp [hc]
  · simp [ha] at h

/-- Every pass through the translate part of the loop body calls `translate`. -/
theorem emitLog_called (cfg : ConfigStruct) (svc : Service) (secrets : List Secret)
    (l : Log) (p : Proc) :
    p.called.length < (emitLog cfg svc secrets l p).2.called.length := by
  unfold emitLog
  have h1 := actorStep_called cfg svc secrets l p
  have h2 := actorStep_stopped cfg svc secrets l p
  generalize actorStep cfg svc secrets l p = r at h1 h2
  obtain ⟨st, actor, p1⟩ := r
  cases st with
  | running =>
    simp only
    rw [contentStep_called]
    simp only [List.length_append, List.length_singleton]
    simp only at h1
    omega
  | panicked => exact h2 (by simp)
  | noFuel => exact h2 (by simp)

/-- C4, as stated, fails: the example line of `main.go`, read by a process whose
start instant equals the timestamp of the line, is not dropped. -/
theorem startTime_equal_not_dropped :
    ¬ (∀ (cfg : ConfigStruct) (timeParse : String → Except String Int) (svc : Service)
        (secrets : List Secret) (now : Int) (p : Proc) (line : String) (l : Log),
        parseLine timeParse line = Run.done (Except.ok l) → l.Timestamp ≤ now →
        mainStep cfg timeParse svc secrets now p line = (Status.running, p)) := by
  intro h
  have h1 := h sampleConfig sampleTimeParse sampleServiceOk sampleSecrets
    202210222013420000000 initProc sampleLine
    ⟨202210222013420000000, "003D", "Name", "Hello there."⟩ (by decide) (by decide)
  revert h1
  decide

/-- C4, amended: a parsed event whose timestamp is strictly before the start instant
is dropped, whatever its code: the process is as it was, no call of `translate`, no
output. An event whose timestamp is the start instant or later and whose code is in
the target list goes on to the translate part of the loop body, which calls
`translate`; so a line that leads to a call of `translate` has a timestamp that is
not before the start instant. -/
theorem startTime_filter (cfg : ConfigStruct) (timeParse : String → Except String Int)
    (svc : Service) (secrets : List Secret) (now : Int) (p : Proc) (line : String) (l : Log)
    (hparse : parseLine timeParse line = Run.done (Except.ok l)) :
    (l.Timestamp < now →
      mainStep cfg timeParse svc secrets now p line = (Status.running, p)) ∧
    (now ≤ l.Timestamp → l.LogCode ∈ cfg.TargetChatCodes →
      mainStep cfg timeParse svc secrets now p line = emitLog cfg svc secrets l p ∧
      p.called.length < (mainStep cfg timeParse svc secrets now p line).2.called.length) ∧
    ((mainStep cfg timeParse svc secrets now p line).2.called ≠ p.called →
      now ≤ l.Timestamp) := by
  have hstep := mainStep_parsed cfg timeParse svc secrets now p line l hparse
  have hold : l.Timestamp < now →
      mainStep cfg timeParse svc secrets now p line = (Status.running, p) := by
    intro hlt
    rw [hstep]
    simp [hlt]
  refine ⟨hold, ?_, ?_⟩
  · intro hle hmem
    have hnlt : ¬ l.Timestamp < now := not_lt.mpr hle
    have he : mainStep cfg timeParse svc secrets now p line = emitLog cfg svc secrets l p := by
      rw [hstep, (foundChatCode_iff _ _).mpr hmem]
      simp [hnlt]
    refine ⟨he, ?_⟩
    rw [he]
    exact emitLog_called cfg svc secrets l p
  · intro hne
    by_contra hlt
    rw [hold (not_le.mp hlt)] at hne
    exact hne rfl

/-- C4, amended, on the example line of `main.go`: dropped by a process started one
unit after its timestamp, translated by a process started at its timestamp. -/
theorem startTime_filter_witness :
    mainStep sampleConfig sampleTimeParse sampleServiceOk sampleSecrets
      202210222013420000001 initProc sampleLine = (Status.running, initProc) ∧
    (mainStep sampleConfig sampleTimeParse sampleServiceOk sampleSecrets
      202210222013420000000 initProc sampleLine =
      emitLog sampleConfig sampleServiceOk sampleSecrets
        ⟨202210222013420000000, "003D", "Name", "Hello there."⟩ initProc ∧
     initProc.called.length <
      (mainStep sampleConfig sampleTimeParse sampleServiceOk sampleSecrets
        202210222013420000000 initProc sampleLine).2.called.length) :=
  ⟨(startTime_filter sampleConfig sampleTimeParse sampleServiceOk sampleSecrets
      202210222013420000001 initProc sampleLine
      ⟨202210222013420000000, "003D", "Name", "Hello there."⟩ (by decide)).1 (by decide),
   (startTime_filter sampleConfig sampleTimeParse sampleServiceOk sampleSecrets
      202210222013420000000 initProc sampleLine
      ⟨202210222013420000000, "003D", "Name", "Hello there."⟩ (by decide)).2.1
      (by decide) (by decide)⟩

/-! ## Translator: lemmas -/

theorem cacheLookup_store_self (cache : List (String × String)) (content result : String) :
    cacheLookup (cacheStore cache content result) content = some result := by
  simp [cacheLookup, cacheStore, List.lookup]

theorem stringsContains_ne_empty (s sub : String) (hsub : sub ≠ "")
    (h : stringsContains s sub = true) : s ≠ "" := by
  rintro rfl
  apply hsub
  simp [stringsContains] at h
  cases sub
  simp_all

theorem translateFuel_empty (cfg : ConfigStruct) (svc : Service) (secrets : List Secret)
    (fuel : Nat) (w : World) :
    translateFuel cfg svc secrets "" (fuel + 1) w = (Ret.value "" none, w) := by
  simp [translateFuel]

theorem translateFuel_hit (cfg : ConfigStruct) (svc : Service) (secrets : List Secret)
    (content translated : String) (fuel : Nat) (w : World) (hne : content ≠ "")
    (hhit : cacheLookup w.cache content = some translated) :
    translateFuel cfg svc secrets content (fuel + 1) w = (Ret.value translated none, w) := by
  simp [translateFuel, hne, hhit]

theorem translateFuel_out_of_range (cfg : ConfigStruct) (svc : Service)
    (secrets : List Secret) (content : String) (fuel : Nat) (w : World) (hne : content ≠ "")
    (hmiss : cacheLookup w.cache content = none) (hidx : secrets.length ≤ w.secretIdx) :
    translateFuel cfg svc secrets content (fuel + 1) w = (Ret.panic, w) := by
  have h : secrets[w.secretIdx]? = none := List.getElem?_eq_none hidx
  simp [translateFuel, hne, hmiss, index, h]

/-- One pass through the body of `translate` on a text that is not empty and not
cached, with the cursor in range: the request is sent and the outcome decides. -/
theorem translateFuel_request (cfg : ConfigStruct) (svc : Service) (secrets : List Secret)
    (content : String) (fuel : Nat) (w : World) (secret : Secret) (hne : content ≠ "")
    (hmiss : cacheLookup w.cache content = none)
    (hidx : secrets[w.secretIdx]? = some secret) :
    translateFuel cfg svc secrets content (fuel + 1) w =
      match svc (w.sent ++ [buildRequest cfg secret content]) with
      | Outcome.doError err =>
        (Ret.value "" (some err), { w with sent := w.sent ++ [buildRequest cfg secret content] })
      | Outcome.readError err =>
        (Ret.value "" (some err), { w with sent := w.sent ++ [buildRequest cfg secret content] })
      | Outcome.decodeError err =>
        (Ret.value "" (some err), { w with sent := w.sent ++ [buildRequest cfg secret content] })
      | Outcome.response papagoResp =>
        if papagoResp.ErrorMsg ≠ "" then
          if stringsContains papagoResp.ErrorMsg "exceeded" then
            translateFuel cfg svc secrets content fuel
              { w with sent := w.sent ++ [buildRequest cfg secret content],
                       secretIdx := w.secretIdx + 1 }
          else
            (Ret.value "" (some ("papago error: " ++ papagoResp.ErrorMsg)),
              { w with sent := w.sent ++ [buildRequest cfg secret content] })
        else
          (Ret.value papagoResp.TranslatedText none,
            { w with sent := w.sent ++ [buildRequest cfg secret content],
                     cache := cacheStore w.cache content papagoResp.TranslatedText }) := by
  simp only [translateFuel, hne, if_false, hmiss, index, hidx]

/-- C5: on every state (every cache, every credential list, every cursor) and for
every service, `translate("")` returns the empty string and no error, and the state
after the call is the state before it: no request sent, cache and cursor as they were. -/
theorem translate_empty (cfg : ConfigStruct) (svc : Service) (secrets : List Secret)
    (w : World) :
    translate cfg svc secrets "" w = (Ret.value "" none, w) := by
  unfold translate
  exact translateFuel_empty cfg svc secrets _ w

/-- A call of `translate` on a text that is not empty, when it returns without error,
leaves the text in the cache with the returned translation. -/
theorem translateFuel_success_cached (cfg : ConfigStruct) (svc : Service)
    (secrets : List Secret) (content : String) (hne : content ≠ "") :
    ∀ (fuel : Nat) (w w1 : World) (t : String),
      translateFuel cfg svc secrets content fuel w = (Ret.value t none, w1) →
      cacheLookup w1.cache content = some t := by
  intro fuel
  induction fuel with
  | zero =>
    intro w w1 t h
    simp [translateFuel] at h
  | succ fuel ih =>
    intro w w1 t h
    cases hl : cacheLookup w.cache content with
    | some translated =>
      rw [translateFuel_hit cfg svc secrets content translated fuel w hne hl] at h
      simp only [Prod.mk.injEq, Ret.value.injEq, and_true] at h
      obtain ⟨rfl, rfl⟩ := h
      exact hl
    | none =>
      cases hs : secrets[w.secretIdx]? with
      | none =>
        rw [translateFuel_out_of_range cfg svc secrets content fuel w hne hl
          (List.getElem?_eq_none_iff.mp hs)] at h
        simp at h
      | some secret =>
        rw [translateFuel_request cfg svc secrets content fuel w secret hne hl hs] at h
        cases ho : svc (w.sent ++ [buildRequest cfg secret content]) with
        | doError err => rw [ho] at h; simp at h
        | readError err => rw [ho] at h; simp at h
        | decodeError err => rw [ho] at h; simp at h
        | response resp =>
          rw [ho] at h
          simp only at h
          by_cases hm : resp.ErrorMsg = ""
          · simp only [hm, ne_eq, not_true_eq_false, if_false, Prod.mk.injEq,
              Ret.value.injEq, and_true] at h
            obtain ⟨rfl, rfl⟩ := h
            exact cacheLookup_store_self _ _ _
          · simp only [hm, ne_eq, not_false_eq_true, if_true] at h
            by_cases hq : stringsContains resp.ErrorMsg "exceeded" = true
            · simp only [hq, if_true] at h
              exact ih _ _ _ h
            · simp [hq] at h

/-- A call of `translate` never moves the cursor back, and sends at most one request
more than the number of places it moves the cursor forward. -/
theorem translateFuel_sent_le (cfg : ConfigStruct) (svc : Service)
    (secrets : List Secret) (content : String) :
    ∀ (fuel : Nat) (w : World),
      w.secretIdx ≤ (translateFuel cfg svc secrets content fuel w).2.secretIdx ∧
      (translateFuel cfg svc secrets content fuel w).2.sent.length + w.secretIdx ≤
        w.sent.length + (translateFuel cfg svc secrets content fuel w).2.secretIdx + 1 := by
  intro fuel
  induction fuel with
  | zero =>
    intro w
    simp [translateFuel]
  | succ fuel ih =>
    intro w
    by_cases hne : content = ""
    · subst hne
      rw [translateFuel_empty]
      simp
    cases hl : cacheLookup w.cache content with
    | some translated =>
      rw [translateFuel_hit cfg svc secrets content translated fuel w hne hl]
      simp
    | none =>
      cases hs : secrets[w.secretIdx]? with
      | none =>
        rw [translateFuel_out_of_range cfg svc secrets content fuel w hne hl
          (List.getElem?_eq_none_iff.mp hs)]
        simp
      | some secret =>
        rw [translateFuel_request cfg svc secrets content fuel w secret hne hl hs]
        cases ho : svc (w.sent ++ [buildRequest cfg secret content]) with
        | doError err => simp; omega
        | readError err => simp; omega
        | decodeError err => simp; omega
        | response resp =>
          simp only
          by_cases hm : resp.ErrorMsg = ""
          · simp [hm]; omega
          · simp only [hm, ne_eq, not_false_eq_true, if_true]
            by_cases hq : stringsContains resp.ErrorMsg "exceeded" = true
            · simp only [hq, if_true]
              have h := ih { w with sent := w.sent ++ [buildRequest cfg secret content],
                                    secretIdx := w.secretIdx + 1 }
              simp only [List.length_append, List.length_singleton] at h
              omega
            · simp [hq]; omega

/-- C7: on a text that is not empty and not cached, with the cursor at `i` and `i+1`
in range: when the request with credential `i` is answered with an error message
containing `exceeded` and the request that follows it, with credential `i+1`, is
answered with a response without error message carrying `r`, then `translate`
returns `r` without error, the cursor is `i+1`, and the requests sent by the call are
exactly the first one and one retry, which carries the id and the secret of credential
`i+1` and the same text. -/
theorem translate_rotate_once (cfg : ConfigStruct) (svc : Service) (secrets : List Secret)
    (text : String) (w : World) (s0 s1 : Secret) (quota : PapagoResponse)
    (r code : String) (hne : text ≠ "") (hmiss : cacheLookup w.cache text = none)
    (h0 : secrets[w.secretIdx]? = some s0) (h1 : secrets[w.secretIdx + 1]? = some s1)
    (hquota : svc (w.sent ++ [buildRequest cfg s0 text]) = Outcome.response quota)
    (hexceeded : stringsContains quota.ErrorMsg "exceeded" = true)
    (hsuccess : svc (w.sent ++ [buildRequest cfg s0 text] ++ [buildRequest cfg s1 text]) =
      Outcome.response { TranslatedText := r, ErrorMsg := "", ErrorCode := code }) :
    translate cfg svc secrets text w =
      (Ret.value r none,
        { cache := cacheStore w.cache text r
          secretIdx := w.secretIdx + 1
          sent := w.sent ++ [buildRequest cfg s0 text] ++ [buildRequest cfg s1 text] }) ∧
    (buildRequest cfg s1 text).clientId = s1.ClientId ∧
    (buildRequest cfg s1 text).clientSecret = s1.ClientSecret ∧
    (buildRequest cfg s1 text).body = requestBody cfg text := by
  refine ⟨?_, rfl, rfl, rfl⟩
  have hlen : w.secretIdx + 1 < secrets.length := by
    by_contra hc
    rw [List.getElem?_eq_none (not_lt.mp hc)] at h1
    simp at h1
  obtain ⟨n, hn⟩ : ∃ n, secrets.length - w.secretIdx + 1 = n + 1 + 1 :=
    ⟨secrets.length - w.secretIdx - 1, by omega⟩
  have hmsg : quota.ErrorMsg ≠ "" :=
    stringsContains_ne_empty quota.ErrorMsg "exceeded" (by decide) hexceeded
  unfold translate
  rw [hn, translateFuel_request cfg svc secrets text (n + 1) w s0 hne hmiss h0, hquota]
  simp only [hmsg, ne_eq, not_false_eq_true, if_true, hexceeded]
  rw [translateFuel_request cfg svc secrets text n
    { w with sent := w.sent ++ [buildRequest cfg s0 text], secretIdx := w.secretIdx + 1 }
    s1 hne hmiss h1]
  simp only [hsuccess]
  simp

/-- C7 on a concrete run: two credentials, the first out of quota. -/
theorem translate_rotate_once_witness :
    translate sampleConfig sampleServiceRotate sampleSecrets "Hello there." initWorld =
      (Ret.value "T" none,
        { cache := cacheStore [] "Hello there." "T"
          secretIdx := 0 + 1
          sent := [] ++ [buildRequest sampleConfig ⟨"id0", "key0"⟩ "Hello there."] ++
            [buildRequest sampleConfig ⟨"id1", "key1"⟩ "Hello there."] }) ∧
    (buildRequest sampleConfig ⟨"id1", "key1"⟩ "Hello there.").clientId = "id1" ∧
    (buildRequest sampleConfig ⟨"id1", "key1"⟩ "Hello there.").clientSecret = "key1" ∧
    (buildRequest sampleConfig ⟨"id1", "key1"⟩ "Hello there.").body =
      requestBody sampleConfig "Hello there." :=
  translate_rotate_once sampleConfig sampleServiceRotate sampleSecrets "Hello there."
    initWorld ⟨"id0", "key0"⟩ ⟨"id1", "key1"⟩
    { TranslatedText := "", ErrorMsg := "Query limit exceeded", ErrorCode := "010" }
    "T" "" (by decide) (by decide) (by decide) (by decide) (by decide) (by decide)
    (by decide)

/-! ### Exhaustion of the credentials -/

/-- With the cursor on the last credential, a quota answer moves the cursor past
the last index and the recursive call panics at `secrets[*secretIdx]`, after one
request and before a second. -/
theorem translate_last_quota (cfg : ConfigStruct) (svc : Service) (secrets : List Secret)
    (text : String) (w : World) (s0 : Secret) (quota : PapagoResponse)
    (hne : text ≠ "") (hmiss : cacheLookup w.cache text = none)
    (h0 : secrets[w.secretIdx]? = some s0) (hlast : w.secretIdx + 1 = secrets.length)
    (hquota : svc (w.sent ++ [buildRequest cfg s0 text]) = Outcome.response quota)
    (hexceeded : stringsContains quota.ErrorMsg "exceeded" = true) :
    translate cfg svc secrets text w =
      (Ret.panic, { w with sent := w.sent ++ [buildRequest cfg s0 text],
                           secretIdx := w.secretIdx + 1 }) := by
  have hn : secrets.length - w.secretIdx + 1 = 0 + 1 + 1 := by omega
  have hmsg : quota.ErrorMsg ≠ "" :=
    stringsContains_ne_empty quota.ErrorMsg "exceeded" (by decide) hexceeded
  unfold translate
  rw [hn, translateFuel_request cfg svc secrets text (0 + 1) w s0 hne hmiss h0, hquota]
  simp only [hmsg, ne_eq, not_false_eq_true, if_true, hexceeded]
  exact translateFuel_out_of_range cfg svc secrets text 0
    { w with sent := w.sent ++ [buildRequest cfg s0 text], secretIdx := w.secretIdx + 1 }
    hne hmiss (by simp [hlast])

/-- With the cursor past the end of the list, a call on a text that is not empty and
not cached panics at `secrets[*secretIdx]` and sends nothing. -/
theorem translate_past_end (cfg : ConfigStruct) (svc : Service) (secrets : List Secret)
    (text : String) (w : World) (hne : text ≠ "") (hmiss : cacheLookup w.cache text = none)
    (hidx : secrets.length ≤ w.secretIdx) :
    translate cfg svc secrets text w = (Ret.panic, w) :=
  translateFuel_out_of_range cfg svc secrets text _ w hne hmiss hidx

/-- C8 on the code: one credential, out of quota. The call does not return an error
to its caller: it panics with the cursor out of range, after the one request. A later
call on an uncached text panics again, before any request; `main`, which called
`translate` on the content of the example line, has stopped without output. -/
theorem translate_exhausted_panics :
    translate sampleConfig sampleServiceQuota [⟨"id0", "key0"⟩] "Hello there." initWorld =
      (Ret.panic,
        { cache := [], secretIdx := 1,
          sent := [buildRequest sampleConfig ⟨"id0", "key0"⟩ "Hello there."] }) ∧
    translate sampleConfig sampleServiceQuota [⟨"id0", "key0"⟩] "Again."
        { cache := [], secretIdx := 1,
          sent := [buildRequest sampleConfig ⟨"id0", "key0"⟩ "Hello there."] } =
      (Ret.panic,
        { cache := [], secretIdx := 1,
          sent := [buildRequest sampleConfig ⟨"id0", "key0"⟩ "Hello there."] }) ∧
    (mainStep sampleConfig sampleTimeParse sampleServiceQuota [⟨"id0", "key0"⟩] 0 initProc
        sampleLine).1 = Status.panicked ∧
    (mainStep sampleConfig sampleTimeParse sampleServiceQuota [⟨"id0", "key0"⟩] 0 initProc
        sampleLine).2.out = [] := by
  decide

/-! ### Errors of the provider -/

/-- C9, as stated, fails for a response of the error shape that carries an error code
and no error message: `translate` takes it for a success, returns the empty
translation without error and caches it. -/
theorem translate_error_code_only :
    ¬ (∀ (cfg : ConfigStruct) (svc : Service) (secrets : List Secret) (text : String)
        (w : World) (secret : Secret) (resp : PapagoResponse),
        text ≠ "" → cacheLookup w.cache text = none →
        secrets[w.secretIdx]? = some secret →
        svc (w.sent ++ [buildRequest cfg secret text]) = Outcome.response resp →
        (resp.ErrorMsg ≠ "" ∨ resp.ErrorCode ≠ "") →
        stringsContains resp.ErrorMsg "exceeded" = false →
        ∃ err, translate cfg svc secrets text w =
          (Ret.value "" (some err),
            { w with sent := w.sent ++ [buildRequest cfg secret text] })) := by
  intro h
  obtain ⟨err, herr⟩ := h sampleConfig sampleServiceCodeOnly sampleSecrets "Hello there."
    initWorld ⟨"id0", "key0"⟩ { TranslatedText := "", ErrorMsg := "", ErrorCode := "N2MT99" }
    (by decide) (by decide) (by decide) (by decide) (by decide) (by decide)
  have hrun : translate sampleConfig sampleServiceCodeOnly sampleSecrets "Hello there."
      initWorld =
      (Ret.value "" none,
        { cache := [("Hello there.", "")], secretIdx := 0,
          sent := [buildRequest sampleConfig ⟨"id0", "key0"⟩ "Hello there."] }) := by
    decide
  rw [hrun] at herr
  simp at herr

/-- C9, amended: on a text that is not empty and not cached, with the cursor in
range, a response whose error message is not empty and does not contain `exceeded`
makes `translate` return the error `papago error: <message>` with the empty string;
the call has sent the one request and no retry, and cursor and cache are as before. -/
theorem translate_provider_error (cfg : ConfigStruct) (svc : Service)
    (secrets : List Secret) (text : String) (w : World) (secret : Secret)
    (resp : PapagoResponse) (hne : text ≠ "") (hmiss : cacheLookup w.cache text = none)
    (hidx : secrets[w.secretIdx]? = some secret)
    (hresp : svc (w.sent ++ [buildRequest cfg secret text]) = Outcome.response resp)
    (hmsg : resp.ErrorMsg ≠ "")
    (hother : stringsContains resp.ErrorMsg "exceeded" = false) :
    translate cfg svc secrets text w =
      (Ret.value "" (some ("papago error: " ++ resp.ErrorMsg)),
        { cache := w.cache, secretIdx := w.secretIdx,
          sent := w.sent ++ [buildRequest cfg secret text] }) := by
  unfold translate
  rw [translateFuel_request cfg svc secrets text _ w secret hne hmiss hidx, hresp]
  simp [hmsg, hother]

/-- C9, amended, on a concrete run. -/
theorem translate_provider_error_witness :
    translate sampleConfig sampleServiceError sampleSecrets "Hello there." initWorld =
      (Ret.value "" (some ("papago error: " ++ "Unsupported source language")),
        { cache := [], secretIdx := 0,
          sent := [] ++ [buildRequest sampleConfig ⟨"id0", "key0"⟩ "Hello there."] }) :=
  translate_provider_error sampleConfig sampleServiceError sampleSecrets "Hello there."
    initWorld ⟨"id0", "key0"⟩
    { TranslatedText := "", ErrorMsg := "Unsupported source language", ErrorCode := "N2MT04" }
    (by decide) (by decide) (by decide) (by decide) (by decide) (by decide)

/-! ### The request body -/

/-- C10 on the code: the body is the three values put between the separators as
they are, without escaping. A text with `&` decodes to four fields and a text field
cut at the `&`; the `+` of a text decodes to a space; a text with `%` gives a body
that does not decode. The escaped body of the first text decodes to the text. -/
theorem requestBody_not_escaped :
    requestBody sampleConfig "Tom & Jerry" = "source=ja&target=ko&text=Tom & Jerry" ∧
    formDecode (requestBody sampleConfig "Tom & Jerry") =
      some [("source", "ja"), ("target", "ko"), ("text", "Tom "), (" Jerry", "")] ∧
    formDecode (requestBody sampleConfig "1+1=2") =
      some [("source", "ja"), ("target", "ko"), ("text", "1 1=2")] ∧
    formDecode (requestBody sampleConfig "100%") = none ∧
    formDecode "source=ja&target=ko&text=Tom+%26+Jerry" =
      some [("source", "ja"), ("target", "ko"), ("text", "Tom & Jerry")] := by
  decide

/-! ### The credential cursor -/

theorem isQuota_response (papagoResp : PapagoResponse) :
    isQuota (Outcome.response papagoResp) = stringsContains papagoResp.ErrorMsg "exceeded" :=
  rfl

theorem stringsContains_empty_exceeded : stringsContains "" "exceeded" = false := by
  decide

/-- The requests of a call of `translate` are added after the requests sent before
it, and the cursor moves forward by the number of out-of-quota answers to them. -/
theorem translateFuel_quota_count (cfg : ConfigStruct) (svc : Service)
    (secrets : List Secret) (content : String) :
    ∀ (fuel : Nat) (w : World), ∃ new : List Request,
      (translateFuel cfg svc secrets content fuel w).2.sent = w.sent ++ new ∧
      (translateFuel cfg svc secrets content fuel w).2.secretIdx =
        w.secretIdx + quotaAnswers svc w.sent new := by
  intro fuel
  induction fuel with
  | zero =>
    intro w
    exact ⟨[], by simp [translateFuel, quotaAnswers]⟩
  | succ fuel ih =>
    intro w
    by_cases hne : content = ""
    · subst hne
      rw [translateFuel_empty]
      exact ⟨[], by simp [quotaAnswers]⟩
    cases hl : cacheLookup w.cache content with
    | some translated =>
      rw [translateFuel_hit cfg svc secrets content translated fuel w hne hl]
      exact ⟨[], by simp [quotaAnswers]⟩
    | none =>
      cases hs : secrets[w.secretIdx]? with
      | none =>
        rw [translateFuel_out_of_range cfg svc secrets content fuel w hne hl
          (List.getElem?_eq_none_iff.mp hs)]
        exact ⟨[], by simp [quotaAnswers]⟩
      | some secret =>
        rw [translateFuel_request cfg svc secrets content fuel w secret hne hl hs]
        cases ho : svc (w.sent ++ [buildRequest cfg secret content]) with
        | doError err =>
          exact ⟨[buildRequest cfg secret content], by simp [quotaAnswers, ho, isQuota]⟩
        | readError err =>
          exact ⟨[buildRequest cfg secret content], by simp [quotaAnswers, ho, isQuota]⟩
        | decodeError err =>
          exact ⟨[buildRequest cfg secret content], by simp [quotaAnswers, ho, isQuota]⟩
        | response resp =>
          simp only
          by_cases hm : resp.ErrorMsg = ""
          · refine ⟨[buildRequest cfg secret content], ?_⟩
            simp [hm, quotaAnswers, ho, isQuota, stringsContains_empty_exceeded]
          · simp only [hm, ne_eq, not_false_eq_true, if_true]
            by_cases hq : stringsContains resp.ErrorMsg "exceeded" = true
            · simp only [hq, if_true]
              obtain ⟨new, hsent, hidx⟩ :=
                ih { w with sent := w.sent ++ [buildRequest cfg secret content],
                            secretIdx := w.secretIdx + 1 }
              refine ⟨buildRequest cfg secret content :: new, ?_, ?_⟩
              · rw [hsent]
                simp
              · rw [hidx]
                simp only [quotaAnswers, ho, isQuota_response, hq, if_true]
                omega
            · refine ⟨[buildRequest cfg secret content], ?_⟩
              simp [hq, quotaAnswers, ho, isQuota]

theorem callTranslate_cursor (cfg : ConfigStruct) (svc : Service) (secrets : List Secret)
    (content : String) (p : Proc) :
    p.world.secretIdx ≤ (callTranslate cfg svc secrets content p).2.world.secretIdx :=
  (translateFuel_sent_le cfg svc secrets content _ p.world).1

theorem actorStep_cursor (cfg : ConfigStruct) (svc : Service) (secrets : List Secret)
    (l : Log) (p : Proc) :
    p.world.secretIdx ≤ (actorStep cfg svc secrets l p).2.2.world.secretIdx := by
  unfold actorStep
  by_cases ha : cfg.TranslateActorName = true
  · simp only [ha, if_true]
    have hc := callTranslate_cursor cfg svc secrets l.ActorName p
    generalize callTranslate cfg svc secrets l.ActorName p = r at hc
    obtain ⟨ret, p1⟩ := r
    simp only at hc
    cases ret with
    | noFuel => simpa using hc
    | panic => simpa using hc
    | value t e => cases e <;> simpa using hc
  · simp [ha]

theorem contentStep_cursor (cfg : ConfigStruct) (svc : Service) (secrets : List Secret)
    (l : Log) (actor : String) (p : Proc) :
    p.world.secretIdx ≤ (contentStep cfg svc secrets l actor p).2.world.secretIdx := by
  unfold contentStep
  have hc := callTranslate_cursor cfg svc secrets l.Content p
  generalize callTranslate cfg svc secrets l.Content p = r at hc
  obtain ⟨ret, p2⟩ := r
  simp only at hc
  cases ret <;> simpa using hc

theorem emitLog_cursor (cfg : ConfigStruct) (svc : Service) (secrets : List Secret)
    (l : Log) (p : Proc) :
    p.world.secretIdx ≤ (emitLog cfg svc secrets l p).2.world.secretIdx := by
  unfold emitLog
  have h1 := actorStep_cursor cfg svc secrets l p
  generalize actorStep cfg svc secrets l p = r at h1
  obtain ⟨st, actor, p1⟩ := r
  simp only at h1
  cases st with
  | running => exact le_trans h1 (contentStep_cursor cfg svc secrets l actor p1)
  | panicked => exact h1
  | noFuel => exact h1

theorem mainStep_cursor (cfg : ConfigStruct) (timeParse : String → Except String Int)
    (svc : Service) (secrets : List Secret) (now : Int) (p : Proc) (line : String) :
    p.world.secretIdx ≤
      (mainStep cfg timeParse svc secrets now p line).2.world.secretIdx := by
  unfold mainStep
  cases parseLine timeParse line with
  | panic => exact le_refl _
  | done res =>
    cases res with
    | error err => exact le_refl _
    | ok l =>
      simp only
      by_cases hts : l.Timestamp < now
      · simp [hts]
      · by_cases hf : foundChatCode cfg.TargetChatCodes l.LogCode = true
        · simp only [hts, if_false, hf, Bool.not_true]
          exact emitLog_cursor cfg svc secrets l p
        · simp [hts, hf]

theorem mainLoop_cursor (cfg : ConfigStruct) (timeParse : String → Except String Int)
    (svc : Service) (secrets : List Secret) (now : Int) :
    ∀ (lines : List String) (p : Proc),
      p.world.secretIdx ≤
        (mainLoop cfg timeParse svc secrets now p lines).2.world.secretIdx := by
  intro lines
  induction lines with
  | nil =>
    intro p
    exact le_refl _
  | cons line rest ih =>
    intro p
    unfold mainLoop
    have h1 := mainStep_cursor cfg timeParse svc secrets now p line
    generalize mainStep cfg timeParse svc secrets now p line = r at h1
    obtain ⟨st, p1⟩ := r
    simp only at h1
    cases st with
    | running => exact le_trans h1 (ih p1)
    | panicked => exact h1
    | noFuel => exact h1

/-- C11: a call of `translate`, on every text, state and service and however the
call ends, leaves the cursor at or after the place where it found it; the cursor has
moved forward by exactly the number of out-of-quota answers to the requests the call
sent; and neither one pass through the loop body of `main` nor the loop over any
number of lines moves the cursor back. -/
theorem secretIdx_monotone (cfg : ConfigStruct) (svc : Service) (secrets : List Secret)
    (text : String) (w : World) :
    w.secretIdx ≤ (translate cfg svc secrets text w).2.secretIdx ∧
    (∃ new : List Request,
      (translate cfg svc secrets text w).2.sent = w.sent ++ new ∧
      (translate cfg svc secrets text w).2.secretIdx =
        w.secretIdx + quotaAnswers svc w.sent new) ∧
    (∀ (timeParse : String → Except String Int) (now : Int) (p : Proc) (line : String),
      p.world.secretIdx ≤
        (mainStep cfg timeParse svc secrets now p line).2.world.secretIdx) ∧
    (∀ (timeParse : String → Except String Int) (now : Int) (p : Proc)
      (lines : List String),
      p.world.secretIdx ≤
        (mainLoop cfg timeParse svc secrets now p lines).2.world.secretIdx) :=
  ⟨(translateFuel_sent_le cfg svc secrets text _ w).1,
   translateFuel_quota_count cfg svc secrets text _ w,
   fun timeParse now p line => mainStep_cursor cfg timeParse svc secrets now p line,
   fun timeParse now p lines => mainLoop_cursor cfg timeParse svc secrets now lines p⟩

/-! ### The cache -/

theorem filter_of_lookup_none (cache : List (String × String)) (content : String)
    (hmiss : cacheLookup cache content = none) :
    cache.filter (fun e => e.1 != content) = cache := by
  induction cache with
  | nil => rfl
  | cons e rest ih =>
    obtain ⟨a, b⟩ := e
    unfold cacheLookup at hmiss ih
    rw [List.lookup_cons] at hmiss
    by_cases hk : content = a
    · subst hk
      simp at hmiss
    · have hb : (content == a) = false := by simpa using hk
      rw [hb] at hmiss
      have hne : (a != content) = true := by
        simp only [bne_iff_ne, ne_eq]
        exact fun h => hk h.symm
      simp only [List.filter_cons, hne, if_true]
      rw [ih hmiss]

theorem cacheStore_of_miss (cache : List (String × String)) (content result : String)
    (hmiss : cacheLookup cache content = none) :
    cacheStore cache content result = (content, result) :: cache := by
  unfold cacheStore
  rw [filter_of_lookup_none cache content hmiss]

theorem cacheLookup_cons_other (cache : List (String × String)) (content result k : String)
    (hk : k ≠ content) :
    cacheLookup ((content, result) :: cache) k = cacheLookup cache k := by
  unfold cacheLookup
  rw [List.lookup_cons]
  have hb : (k == content) = false := by simpa using hk
  rw [hb]

/-- A call of `translate` leaves the cache as it was, or, on a text that is not empty
and was not a key, returns a translation without error and adds the one entry of the
text with that translation. -/
theorem translateFuel_cache_cases (cfg : ConfigStruct) (svc : Service)
    (secrets : List Secret) (content : String) :
    ∀ (fuel : Nat) (w : World),
      (translateFuel cfg svc secrets content fuel w).2.cache = w.cache ∨
      (content ≠ "" ∧ cacheLookup w.cache content = none ∧
        ∃ t, (translateFuel cfg svc secrets content fuel w).1 = Ret.value t none ∧
          (translateFuel cfg svc secrets content fuel w).2.cache = (content, t) :: w.cache) := by
  intro fuel
  induction fuel with
  | zero =>
    intro w
    exact Or.inl (by simp [translateFuel])
  | succ fuel ih =>
    intro w
    by_cases hne : content = ""
    · subst hne
      rw [translateFuel_empty]
      exact Or.inl rfl
    cases hl : cacheLookup w.cache content with
    | some translated =>
      rw [translateFuel_hit cfg svc secrets content translated fuel w hne hl]
      exact Or.inl rfl
    | none =>
      cases hs : secrets[w.secretIdx]? with
      | none =>
        rw [translateFuel_out_of_range cfg svc secrets content fuel w hne hl
          (List.getElem?_eq_none_iff.mp hs)]
        exact Or.inl rfl
      | some secret =>
        rw [translateFuel_request cfg svc secrets content fuel w secret hne hl hs]
        cases ho : svc (w.sent ++ [buildRequest cfg secret content]) with
        | doError err => exact Or.inl rfl
        | readError err => exact Or.inl rfl
        | decodeError err => exact Or.inl rfl
        | response resp =>
          simp only
          by_cases hm : resp.ErrorMsg = ""
          · refine Or.inr ⟨hne, trivial, resp.TranslatedText, ?_, ?_⟩
            · simp [hm]
            · simp [hm, cacheStore_of_miss w.cache content resp.TranslatedText hl]
          · simp only [hm, ne_eq, not_false_eq_true, if_true]
            by_cases hq : stringsContains resp.ErrorMsg "exceeded" = true
            · simp only [hq, if_true]
              have h := ih { w with sent := w.sent ++ [buildRequest cfg secret content],
                                    secretIdx := w.secretIdx + 1 }
              rcases h with h | ⟨_, _, t, ht, hc⟩
              · exact Or.inl h
              · exact Or.inr ⟨hne, trivial, t, ht, hc⟩
            · simp only [hq]
              exact Or.inl rfl

/-- C12: every key of the cache before a call of `translate` is a key after it, with
the same value, and every entry of before is an entry of after, however the call may
have ended; the cache after the call is the cache before it, or the cache before it
with one entry more, under the text of the call, which was not a key. -/
theorem cache_permanent (cfg : ConfigStruct) (svc : Service) (secrets : List Secret)
    (text : String) (w : World) :
    (∀ k v, cacheLookup w.cache k = some v →
      cacheLookup (translate cfg svc secrets text w).2.cache k = some v) ∧
    (∀ e, e ∈ w.cache → e ∈ (translate cfg svc secrets text w).2.cache) ∧
    ((translate cfg svc secrets text w).2.cache = w.cache ∨
      (cacheLookup w.cache text = none ∧
        ∃ r, (translate cfg svc secrets text w).2.cache = (text, r) :: w.cache)) := by
  have h := translateFuel_cache_cases cfg svc secrets text
    (secrets.length - w.secretIdx + 1) w
  unfold translate
  rcases h with h | ⟨_, hmiss, t, _, hc⟩
  · rw [h]
    exact ⟨fun _ _ hk => hk, fun _ he => he, Or.inl rfl⟩
  · rw [hc]
    refine ⟨?_, fun e he => List.mem_cons_of_mem _ he, Or.inr ⟨hmiss, t, rfl⟩⟩
    intro k v hk
    have hne : k ≠ text := by
      rintro rfl
      rw [hmiss] at hk
      simp at hk
    rw [cacheLookup_cons_other w.cache text t k hne]
    exact hk

/-! ### Rotation through the credentials -/

theorem secret_in_range (secrets : List Secret) (i : Nat) (secret : Secret)
    (h : secrets[i]? = some secret) : i < secrets.length := by
  by_contra hc
  rw [List.getElem?_eq_none (not_lt.mp hc)] at h
  simp at h

theorem requestsFrom_zero (cfg : ConfigStruct) (secrets : List Secret) (text : String)
    (i : Nat) : requestsFrom cfg secrets text i 0 = [] := by
  simp [requestsFrom]

theorem requestsFrom_succ (cfg : ConfigStruct) (secrets : List Secret) (text : String)
    (i m : Nat) (secret : Secret) (h : secrets[i]? = some secret) :
    requestsFrom cfg secrets text i (m + 1) =
      buildRequest cfg secret text :: requestsFrom cfg secrets text (i + 1) m := by
  have hlt := secret_in_range secrets i secret h
  have hd : secrets.drop i = secret :: secrets.drop (i + 1) := by
    rw [List.drop_eq_getElem_cons hlt]
    rw [List.getElem?_eq_getElem hlt] at h
    simp only [Option.some.injEq] at h
    rw [h]
  simp [requestsFrom, hd]

theorem requestsFrom_length_le (cfg : ConfigStruct) (secrets : List Secret) (text : String)
    (i m : Nat) : (requestsFrom cfg secrets text i m).length ≤ secrets.length - i := by
  simp [requestsFrom]

/-- A call of `translate` whose first `k` requests are answered out of quota and
whose request `k+1` is answered without error message returns the translated text of
that answer, with the cursor `k` places further and the text cached. -/
theorem translateFuel_rotations (cfg : ConfigStruct) (svc : Service)
    (secrets : List Secret) (text : String) (resp : PapagoResponse) (hne : text ≠ "")
    (hok : resp.ErrorMsg = "") :
    ∀ (k fuel : Nat) (w : World), k < fuel → cacheLookup w.cache text = none →
      w.secretIdx + k < secrets.length →
      (∀ j, j < k →
        isQuota (svc (w.sent ++ requestsFrom cfg secrets text w.secretIdx (j + 1))) = true) →
      svc (w.sent ++ requestsFrom cfg secrets text w.secretIdx (k + 1))
        = Outcome.response resp →
      translateFuel cfg svc secrets text fuel w =
        (Ret.value resp.TranslatedText none,
          { cache := cacheStore w.cache text resp.TranslatedText
            secretIdx := w.secretIdx + k
            sent := w.sent ++ requestsFrom cfg secrets text w.secretIdx (k + 1) }) := by
  intro k
  induction k with
  | zero =>
    intro fuel w hfuel hmiss hidx _ hsucc
    obtain ⟨f, rfl⟩ : ∃ f, fuel = f + 1 := ⟨fuel - 1, by omega⟩
    have hlt : w.secretIdx < secrets.length := by omega
    have hs : secrets[w.secretIdx]? = some secrets[w.secretIdx] :=
      List.getElem?_eq_getElem hlt
    rw [requestsFrom_succ cfg secrets text w.secretIdx 0 _ hs, requestsFrom_zero] at hsucc ⊢
    rw [translateFuel_request cfg svc secrets text f w _ hne hmiss hs, hsucc]
    simp [hok]
  | succ k ih =>
    intro fuel w hfuel hmiss hidx hquota hsucc
    obtain ⟨f, rfl⟩ : ∃ f, fuel = f + 1 := ⟨fuel - 1, by omega⟩
    have hlt : w.secretIdx < secrets.length := by omega
    have hs : secrets[w.secretIdx]? = some secrets[w.secretIdx] :=
      List.getElem?_eq_getElem hlt
    have hq0 := hquota 0 (by omega)
    rw [requestsFrom_succ cfg secrets text w.secretIdx 0 _ hs, requestsFrom_zero] at hq0
    rw [translateFuel_request cfg svc secrets text f w _ hne hmiss hs]
    cases ho : svc (w.sent ++ [buildRequest cfg secrets[w.secretIdx] text]) with
    | doError err => rw [ho] at hq0; simp [isQuota] at hq0
    | readError err => rw [ho] at hq0; simp [isQuota] at hq0
    | decodeError err => rw [ho] at hq0; simp [isQuota] at hq0
    | response quota =>
      rw [ho, isQuota_response] at hq0
      have hmsg : quota.ErrorMsg ≠ "" :=
        stringsContains_ne_empty quota.ErrorMsg "exceeded" (by decide) hq0
      simp only [hmsg, ne_eq, not_false_eq_true, if_true, hq0]
      have hstep : ∀ m, w.sent ++ requestsFrom cfg secrets text w.secretIdx (m + 1 + 1) =
          (w.sent ++ [buildRequest cfg secrets[w.secretIdx] text]) ++
            requestsFrom cfg secrets text (w.secretIdx + 1) (m + 1) := by
        intro m
        rw [requestsFrom_succ cfg secrets text w.secretIdx (m + 1) _ hs]
        simp
      have h := ih f
        { w with sent := w.sent ++ [buildRequest cfg secrets[w.secretIdx] text],
                 secretIdx := w.secretIdx + 1 }
        (by omega) hmiss (by simp only; omega)
        (by
          intro j hj
          have := hquota (j + 1) (by omega)
          rw [hstep j] at this
          exact this)
        (by
          rw [hstep k] at hsucc
          exact hsucc)
      rw [h, hstep k]
      simp only [Prod.mk.injEq, World.mk.injEq, true_and, and_true]
      omega

/-- C13: on a text that is not empty and not cached, when the requests made with the
credentials at the cursor and the `k - 1` after it are answered out of quota (none,
for `k = 0`) and the request made with the next credential is answered without
error message with the translated text `r`, then `translate` returns `r` and no
error; the cache after the call maps the text itself to `r`, it is the cache of
before with that one entry set, and its other keys are as before. -/
theorem translate_success_cached (cfg : ConfigStruct) (svc : Service)
    (secrets : List Secret) (text : String) (w : World) (k : Nat) (r code : String)
    (hne : text ≠ "") (hmiss : cacheLookup w.cache text = none)
    (hidx : w.secretIdx + k < secrets.length)
    (hquota : ∀ j, j < k →
      isQuota (svc (w.sent ++ requestsFrom cfg secrets text w.secretIdx (j + 1))) = true)
    (hsuccess : svc (w.sent ++ requestsFrom cfg secrets text w.secretIdx (k + 1)) =
      Outcome.response { TranslatedText := r, ErrorMsg := "", ErrorCode := code }) :
    translate cfg svc secrets text w =
      (Ret.value r none,
        { cache := cacheStore w.cache text r
          secretIdx := w.secretIdx + k
          sent := w.sent ++ requestsFrom cfg secrets text w.secretIdx (k + 1) }) ∧
    cacheLookup (translate cfg svc secrets text w).2.cache text = some r ∧
    (∀ other, other ≠ text →
      cacheLookup (translate cfg svc secrets text w).2.cache other =
        cacheLookup w.cache other) := by
  have h := translateFuel_rotations cfg svc secrets text
    { TranslatedText := r, ErrorMsg := "", ErrorCode := code } hne rfl k
    (secrets.length - w.secretIdx + 1) w (by omega) hmiss hidx hquota hsuccess
  simp only at h
  unfold translate
  rw [h]
  refine ⟨rfl, cacheLookup_store_self _ _ _, ?_⟩
  intro other hother
  simp only
  rw [cacheStore_of_miss w.cache text r hmiss]
  exact cacheLookup_cons_other w.cache text r other hother

/-- C13 on two concrete runs: an answer at the first request, and an answer after
one rotation. -/
theorem translate_success_cached_witness :
    translate sampleConfig sampleServiceOk sampleSecrets "Hello there." initWorld =
      (Ret.value "T" none,
        { cache := [("Hello there.", "T")], secretIdx := 0,
          sent := [buildRequest sampleConfig ⟨"id0", "key0"⟩ "Hello there."] }) ∧
    (translate sampleConfig sampleServiceRotate sampleSecrets "Hello there." initWorld).1 =
      Ret.value "T" none ∧
    cacheLookup
      (translate sampleConfig sampleServiceRotate sampleSecrets "Hello there." initWorld).2.cache
      "Hello there." = some "T" :=
  ⟨(translate_success_cached sampleConfig sampleServiceOk sampleSecrets "Hello there."
      initWorld 0 "T" "" (by decide) (by decide) (by decide)
      (fun j hj => absurd hj (Nat.not_lt_zero j)) (by decide)).1,
   congrArg Prod.fst
    (translate_success_cached sampleConfig sampleServiceRotate sampleSecrets "Hello there."
      initWorld 1 "T" "" (by decide) (by decide) (by decide)
      (fun j hj => by
        have h0 : j = 0 := by omega
        subst h0
        decide) (by decide)).1,
   (translate_success_cached sampleConfig sampleServiceRotate sampleSecrets "Hello there."
      initWorld 1 "T" "" (by decide) (by decide) (by decide)
      (fun j hj => by
        have h0 : j = 0 := by omega
        subst h0
        decide) (by decide)).2.1⟩

/-! ### Termination of the retry -/

/-- With more budget than there are credentials from the cursor on, the budget does
not matter: the recursion of `translate` ends before it is used up. -/
theorem translateFuel_enough (cfg : ConfigStruct) (svc : Service) (secrets : List Secret)
    (content : String) :
    ∀ (fuel1 fuel2 : Nat) (w : World), secrets.length - w.secretIdx < fuel1 →
      secrets.length - w.secretIdx < fuel2 →
      translateFuel cfg svc secrets content fuel1 w =
        translateFuel cfg svc secrets content fuel2 w := by
  intro fuel1
  induction fuel1 with
  | zero =>
    intro fuel2 w h1
    omega
  | succ f1 ih =>
    intro fuel2 w h1 h2
    obtain ⟨f2, rfl⟩ : ∃ f2, fuel2 = f2 + 1 := ⟨fuel2 - 1, by omega⟩
    by_cases hne : content = ""
    · subst hne
      rw [translateFuel_empty, translateFuel_empty]
    cases hl : cacheLookup w.cache content with
    | some translated =>
      rw [translateFuel_hit cfg svc secrets content translated f1 w hne hl,
        translateFuel_hit cfg svc secrets content translated f2 w hne hl]
    | none =>
      cases hs : secrets[w.secretIdx]? with
      | none =>
        rw [translateFuel_out_of_range cfg svc secrets content f1 w hne hl
            (List.getElem?_eq_none_iff.mp hs),
          translateFuel_out_of_range cfg svc secrets content f2 w hne hl
            (List.getElem?_eq_none_iff.mp hs)]
      | some secret =>
        have hlt := secret_in_range secrets w.secretIdx secret hs
        rw [translateFuel_request cfg svc secrets content f1 w secret hne hl hs,
          translateFuel_request cfg svc secrets content f2 w secret hne hl hs]
        cases ho : svc (w.sent ++ [buildRequest cfg secret content]) with
        | doError err => rfl
        | readError err => rfl
        | decodeError err => rfl
        | response resp =>
          simp only
          by_cases hm : resp.ErrorMsg = ""
          · simp [hm]
          · simp only [hm, ne_eq, not_false_eq_true, if_true]
            by_cases hq : stringsContains resp.ErrorMsg "exceeded" = true
            · simp only [hq, if_true]
              exact ih f2 _ (by simp only; omega) (by simp only; omega)
            · simp [hq]

/-- A call of `translate` with budget enough sends requests with the credentials from
the cursor on, one each in their order, at most as many as there are, and ends with a
translation, with an error, or with the panic of a cursor past the last credential. -/
theorem translateFuel_run (cfg : ConfigStruct) (svc : Service) (secrets : List Secret)
    (content : String) :
    ∀ (fuel : Nat) (w : World), secrets.length - w.secretIdx < fuel →
      ∃ m, m ≤ secrets.length - w.secretIdx ∧
        (translateFuel cfg svc secrets content fuel w).2.sent =
          w.sent ++ requestsFrom cfg secrets content w.secretIdx m ∧
        ((∃ t, (translateFuel cfg svc secrets content fuel w).1 = Ret.value t none) ∨
         (∃ err, (translateFuel cfg svc secrets content fuel w).1 =
            Ret.value "" (some err)) ∨
         ((translateFuel cfg svc secrets content fuel w).1 = Ret.panic ∧
            secrets.length ≤ (translateFuel cfg svc secrets content fuel w).2.secretIdx)) := by
  intro fuel
  induction fuel with
  | zero =>
    intro w h
    omega
  | succ fuel ih =>
    intro w hfuel
    by_cases hne : content = ""
    · subst hne
      rw [translateFuel_empty]
      exact ⟨0, by omega, by simp [requestsFrom_zero], Or.inl ⟨"", rfl⟩⟩
    cases hl : cacheLookup w.cache content with
    | some translated =>
      rw [translateFuel_hit cfg svc secrets content translated fuel w hne hl]
      exact ⟨0, by omega, by simp [requestsFrom_zero], Or.inl ⟨translated, rfl⟩⟩
    | none =>
      cases hs : secrets[w.secretIdx]? with
      | none =>
        have hge := List.getElem?_eq_none_iff.mp hs
        rw [translateFuel_out_of_range cfg svc secrets content fuel w hne hl hge]
        exact ⟨0, by omega, by simp [requestsFrom_zero], Or.inr (Or.inr ⟨rfl, hge⟩)⟩
      | some secret =>
        have hlt := secret_in_range secrets w.secretIdx secret hs
        have hone : requestsFrom cfg secrets content w.secretIdx 1 =
            [buildRequest cfg secret content] := by
          rw [requestsFrom_succ cfg secrets content w.secretIdx 0 secret hs,
            requestsFrom_zero]
        rw [translateFuel_request cfg svc secrets content fuel w secret hne hl hs]
        cases ho : svc (w.sent ++ [buildRequest cfg secret content]) with
        | doError err =>
          exact ⟨1, by omega, by simp [hone], Or.inr (Or.inl ⟨err, rfl⟩)⟩
        | readError err =>
          exact ⟨1, by omega, by simp [hone], Or.inr (Or.inl ⟨err, rfl⟩)⟩
        | decodeError err =>
          exact ⟨1, by omega, by simp [hone], Or.inr (Or.inl ⟨err, rfl⟩)⟩
        | response resp =>
          simp only
          by_cases hm : resp.ErrorMsg = ""
          · simp only [hm, ne_eq, not_true_eq_false, if_false]
            exact ⟨1, by omega, by simp [hone], Or.inl ⟨resp.TranslatedText, rfl⟩⟩
          · simp only [hm, ne_eq, not_false_eq_true, if_true]
            by_cases hq : stringsContains resp.ErrorMsg "exceeded" = true
            · simp only [hq, if_true]
              obtain ⟨m, hm1, hsent, hend⟩ :=
                ih { w with sent := w.sent ++ [buildRequest cfg secret content],
                            secretIdx := w.secretIdx + 1 } (by simp only; omega)
              refine ⟨m + 1, by simp only at hm1; omega, ?_, hend⟩
              rw [hsent, requestsFrom_succ cfg secrets content w.secretIdx m secret hs]
              simp
            · simp only [hq]
              exact ⟨1, by omega, by simp [hone],
                Or.inr (Or.inl ⟨"papago error: " ++ resp.ErrorMsg, rfl⟩)⟩

/-- C16: the recursion of `translate` ends, on every credential list, cursor, text and
service: the budget of the definition is never used up, and any larger budget gives
the same result. The requests of the call are made with the credentials from the
cursor on, one per credential and in their order, so at most `n - i` of them for `n`
credentials and the cursor at `i`; and the call ends with a translation, with an error
returned to the caller, or with the panic of the cursor past the last credential. -/
theorem translate_terminates (cfg : ConfigStruct) (svc : Service) (secrets : List Secret)
    (text : String) (w : World) :
    (translate cfg svc secrets text w).1 ≠ Ret.noFuel ∧
    (∀ fuel, secrets.length - w.secretIdx < fuel →
      translateFuel cfg svc secrets text fuel w = translate cfg svc secrets text w) ∧
    (∃ m, m ≤ secrets.length - w.secretIdx ∧
      (translate cfg svc secrets text w).2.sent =
        w.sent ++ requestsFrom cfg secrets text w.secretIdx m) ∧
    (translate cfg svc secrets text w).2.sent.length ≤
      w.sent.length + (secrets.length - w.secretIdx) ∧
    ((∃ t, (translate cfg svc secrets text w).1 = Ret.value t none) ∨
     (∃ err, (translate cfg svc secrets text w).1 = Ret.value "" (some err)) ∨
     ((translate cfg svc secrets text w).1 = Ret.panic ∧
        secrets.length ≤ (translate cfg svc secrets text w).2.secretIdx)) := by
  obtain ⟨m, hm, hsent, hend⟩ := translateFuel_run cfg svc secrets text
    (secrets.length - w.secretIdx + 1) w (by omega)
  unfold translate
  refine ⟨?_, ?_, ⟨m, hm, hsent⟩, ?_, hend⟩
  · rcases hend with ⟨t, ht⟩ | ⟨err, herr⟩ | ⟨hp, _⟩
    · rw [ht]; simp
    · rw [herr]; simp
    · rw [hp]; simp
  · intro fuel hfuel
    exact translateFuel_enough cfg svc secrets text fuel _ w hfuel (by omega)
  · rw [hsent, List.length_append]
    have := requestsFrom_length_le cfg secrets text w.secretIdx m
    omega

/-! ### The translate part of the loop body -/

theorem translate_error_empty (cfg : ConfigStruct) (svc : Service) (secrets : List Secret)
    (text : String) (w w1 : World) (t err : String)
    (h : translate cfg svc secrets text w = (Ret.value t (some err), w1)) : t = "" := by
  obtain ⟨_, _, _, hend⟩ := translateFuel_run cfg svc secrets text
    (secrets.length - w.secretIdx + 1) w (by omega)
  unfold translate at h
  rw [h] at hend
  rcases hend with ⟨t1, ht⟩ | ⟨e1, he⟩ | ⟨hp, _⟩
  · simp at ht
  · simp only [Ret.value.injEq] at he
    exact he.1
  · simp at hp

theorem actorStep_off (cfg : ConfigStruct) (svc : Service) (secrets : List Secret)
    (l : Log) (p : Proc) (hoff : cfg.TranslateActorName = false) :
    actorStep cfg svc secrets l p = (Status.running, l.ActorName, p) := by
  simp [actorStep, hoff]

theorem actorStep_translated (cfg : ConfigStruct) (svc : Service) (secrets : List Secret)
    (l : Log) (p : Proc) (t : String) (w1 : World) (hon : cfg.TranslateActorName = true)
    (h : translate cfg svc secrets l.ActorName p.world = (Ret.value t none, w1)) :
    actorStep cfg svc secrets l p =
      (Status.running, t,
        { world := w1, out := p.out, called := p.called ++ [l.ActorName] }) := by
  simp [actorStep, hon, callTranslate, h]

theorem actorStep_fallback (cfg : ConfigStruct) (svc : Service) (secrets : List Secret)
    (l : Log) (p : Proc) (s err : String) (w1 : World)
    (hon : cfg.TranslateActorName = true)
    (h : translate cfg svc secrets l.ActorName p.world = (Ret.value s (some err), w1)) :
    actorStep cfg svc secrets l p =
      (Status.running, l.ActorName,
        { world := w1, out := p.out, called := p.called ++ [l.ActorName] }) := by
  simp [actorStep, hon, callTranslate, h]

theorem actorStep_out (cfg : ConfigStruct) (svc : Service) (secrets : List Secret)
    (l : Log) (p : Proc) : (actorStep cfg svc secrets l p).2.2.out = p.out := by
  unfold actorStep
  by_cases ha : cfg.TranslateActorName = true
  · simp only [ha, if_true]
    have hc := callTranslate_out cfg svc secrets l.ActorName p
    generalize callTranslate cfg svc secrets l.ActorName p = r at hc
    obtain ⟨ret, p1⟩ := r
    simp only at hc
    cases ret with
    | noFuel => simpa using hc
    | panic => simpa using hc
    | value t e => cases e <;> simpa using hc
  · simp [ha]

theorem contentStep_value (cfg : ConfigStruct) (svc : Service) (secrets : List Secret)
    (l : Log) (actor : String) (p : Proc) (tr : String) (e : Option String) (w2 : World)
    (h : translate cfg svc secrets l.Content p.world = (Ret.value tr e, w2)) :
    contentStep cfg svc secrets l actor p =
      (Status.running,
        { world := w2, out := p.out ++ [actor ++ ": " ++ tr ++ "\n\n"],
          called := p.called ++ [l.Content] }) := by
  simp [contentStep, callTranslate, h]

theorem emitLog_running (cfg : ConfigStruct) (svc : Service) (secrets : List Secret)
    (l : Log) (p p1 : Proc) (actor : String)
    (h : actorStep cfg svc secrets l p = (Status.running, actor, p1)) :
    emitLog cfg svc secrets l p = contentStep cfg svc secrets l actor p1 := by
  simp [emitLog, h]

theorem mainStep_accepted (cfg : ConfigStruct) (timeParse : String → Except String Int)
    (svc : Service) (secrets : List Secret) (now : Int) (p : Proc) (line : String) (l : Log)
    (hparse : parseLine timeParse line = Run.done (Except.ok l))
    (hts : now ≤ l.Timestamp) (hcode : l.LogCode ∈ cfg.TargetChatCodes) :
    mainStep cfg timeParse svc secrets now p line = emitLog cfg svc secrets l p := by
  rw [mainStep_parsed cfg timeParse svc secrets now p line l hparse,
    (foundChatCode_iff _ _).mpr hcode]
  simp [not_lt.mpr hts]

/-- The actor label, for calls of `translate` that return. For an accepted event
(parsed, not before the start instant, code in the target list) the loop body is its
translate part, in which the actor label is the actor name as it is when actor-name
translation is off, without a call of `translate` on it; the translation of the actor
name when it is on and the call returns without error; the actor name as it is when
it is on and the call returns an error. In each of the three cases `translate` is
then called on the content, and with what that call returns, error or not, the line
`<actor>: <translated>` is written and the loop goes on. -/
theorem actor_label (cfg : ConfigStruct) (timeParse : String → Except String Int)
    (svc : Service) (secrets : List Secret) (now : Int) (p : Proc) (line : String) (l : Log)
    (hparse : parseLine timeParse line = Run.done (Except.ok l))
    (hts : now ≤ l.Timestamp) (hcode : l.LogCode ∈ cfg.TargetChatCodes) :
    mainStep cfg timeParse svc secrets now p line = emitLog cfg svc secrets l p ∧
    (cfg.TranslateActorName = false →
      actorStep cfg svc secrets l p = (Status.running, l.ActorName, p)) ∧
    (∀ t w1, cfg.TranslateActorName = true →
      translate cfg svc secrets l.ActorName p.world = (Ret.value t none, w1) →
      actorStep cfg svc secrets l p =
        (Status.running, t,
          { world := w1, out := p.out, called := p.called ++ [l.ActorName] })) ∧
    (∀ s err w1, cfg.TranslateActorName = true →
      translate cfg svc secrets l.ActorName p.world = (Ret.value s (some err), w1) →
      actorStep cfg svc secrets l p =
        (Status.running, l.ActorName,
          { world := w1, out := p.out, called := p.called ++ [l.ActorName] })) ∧
    (∀ actor p1, actorStep cfg svc secrets l p = (Status.running, actor, p1) →
      (emitLog cfg svc secrets l p).2.called = p1.called ++ [l.Content] ∧
      ∀ tr e w2, translate cfg svc secrets l.Content p1.world = (Ret.value tr e, w2) →
        emitLog cfg svc secrets l p =
          (Status.running,
            { world := w2, out := p1.out ++ [actor ++ ": " ++ tr ++ "\n\n"],
              called := p1.called ++ [l.Content] })) := by
  refine ⟨mainStep_accepted cfg timeParse svc secrets now p line l hparse hts hcode,
    actorStep_off cfg svc secrets l p,
    fun t w1 hon h => actorStep_translated cfg svc secrets l p t w1 hon h,
    fun s err w1 hon h => actorStep_fallback cfg svc secrets l p s err w1 hon h, ?_⟩
  intro actor p1 hactor
  rw [emitLog_running cfg svc secrets l p p1 actor hactor]
  exact ⟨contentStep_called cfg svc secrets l actor p1,
    fun tr e w2 h => contentStep_value cfg svc secrets l actor p1 tr e w2 h⟩

/-- The actor label on the example line of `main.go`: with actor-name translation on
and a service that answers with an error, the actor name is written as it is, after a call
of `translate` on it, and the content is passed to `translate` all the same; with
translation on and a service that answers `T`, the label is `T`; with translation
off, `translate` is called on the content only. -/
theorem actor_label_witness :
    mainStep { sampleConfig with TranslateActorName := true } sampleTimeParse
        sampleServiceError sampleSecrets 0 initProc sampleLine =
      emitLog { sampleConfig with TranslateActorName := true } sampleServiceError
        sampleSecrets ⟨202210222013420000000, "003D", "Name", "Hello there."⟩ initProc ∧
    (mainStep { sampleConfig with TranslateActorName := true } sampleTimeParse
        sampleServiceError sampleSecrets 0 initProc sampleLine).2.out = ["Name: \n\n"] ∧
    (mainStep { sampleConfig with TranslateActorName := true } sampleTimeParse
        sampleServiceError sampleSecrets 0 initProc sampleLine).2.called =
      ["Name", "Hello there."] ∧
    (mainStep { sampleConfig with TranslateActorName := true } sampleTimeParse
        sampleServiceOk sampleSecrets 0 initProc sampleLine).2.out = ["T: T\n\n"] ∧
    (mainStep sampleConfig sampleTimeParse sampleServiceOk sampleSecrets 0 initProc
        sampleLine).2.called = ["Hello there."] ∧
    (mainStep sampleConfig sampleTimeParse sampleServiceOk sampleSecrets 0 initProc
        sampleLine).2.out = ["Name: T\n\n"] :=
  ⟨(actor_label { sampleConfig with TranslateActorName := true } sampleTimeParse
      sampleServiceError sampleSecrets 0 initProc sampleLine
      ⟨202210222013420000000, "003D", "Name", "Hello there."⟩
      (by decide) (by decide) (by decide)).1,
   by decide, by decide, by decide, by decide, by decide⟩

theorem mainLoop_cons_running (cfg : ConfigStruct) (timeParse : String → Except String Int)
    (svc : Service) (secrets : List Secret) (now : Int) (p p1 : Proc) (line : String)
    (rest : List String)
    (h : mainStep cfg timeParse svc secrets now p line = (Status.running, p1)) :
    mainLoop cfg timeParse svc secrets now p (line :: rest) =
      mainLoop cfg timeParse svc secrets now p1 rest := by
  simp [mainLoop, h]

/-- The text written, for calls of `translate` that return. For a line that parses,
with a timestamp not before the start instant and a code in the target list, with the
actor label `actor` chosen by the first half of the translate part and `translate`
returning `translated` for the content, with or without an error: the loop body
writes exactly one text, `actor`, a colon and a space, `translated`, and two
newlines, and the loop goes on with the next line. When `translate` returns an error
for the content, `translated` is empty. -/
theorem mainStep_output (cfg : ConfigStruct) (timeParse : String → Except String Int)
    (svc : Service) (secrets : List Secret) (now : Int) (p p1 : Proc) (line : String)
    (l : Log) (actor translated : String) (err : Option String) (w2 : World)
    (hparse : parseLine timeParse line = Run.done (Except.ok l))
    (hts : now ≤ l.Timestamp) (hcode : l.LogCode ∈ cfg.TargetChatCodes)
    (hactor : actorStep cfg svc secrets l p = (Status.running, actor, p1))
    (hcontent : translate cfg svc secrets l.Content p1.world = (Ret.value translated err, w2)) :
    mainStep cfg timeParse svc secrets now p line =
      (Status.running,
        { world := w2, out := p.out ++ [actor ++ ": " ++ translated ++ "\n\n"],
          called := p1.called ++ [l.Content] }) ∧
    (err ≠ none → translated = "") ∧
    (∀ rest : List String,
      mainLoop cfg timeParse svc secrets now p (line :: rest) =
        mainLoop cfg timeParse svc secrets now
          { world := w2, out := p.out ++ [actor ++ ": " ++ translated ++ "\n\n"],
            called := p1.called ++ [l.Content] } rest) := by
  have hout : p1.out = p.out := by
    have h := actorStep_out cfg svc secrets l p
    rw [hactor] at h
    exact h
  have hstep : mainStep cfg timeParse svc secrets now p line =
      (Status.running,
        { world := w2, out := p.out ++ [actor ++ ": " ++ translated ++ "\n\n"],
          called := p1.called ++ [l.Content] }) := by
    rw [mainStep_accepted cfg timeParse svc secrets now p line l hparse hts hcode,
      emitLog_running cfg svc secrets l p p1 actor hactor,
      contentStep_value cfg svc secrets l actor p1 translated err w2 hcontent, hout]
  refine ⟨hstep, ?_, fun rest =>
    mainLoop_cons_running cfg timeParse svc secrets now p _ line rest hstep⟩
  intro herr
  cases err with
  | none => exact absurd rfl herr
  | some e => exact translate_error_empty cfg svc secrets l.Content p1.world w2 translated e hcontent

/-- The text written for the example line of `main.go`, with the target code `003D`,
actor-name translation off and the start instant `0`: with a service that answers `T` the text
written is `Name: T` and two newlines; with a service that answers with an error it
is `Name: ` and two newlines, and the loop goes on to the next line. -/
theorem mainStep_output_witness :
    mainStep sampleConfig sampleTimeParse sampleServiceOk sampleSecrets 0 initProc
        sampleLine =
      (Status.running,
        { world :=
            { cache := [("Hello there.", "T")], secretIdx := 0,
              sent := [buildRequest sampleConfig ⟨"id0", "key0"⟩ "Hello there."] },
          out := [] ++ ["Name" ++ ": " ++ "T" ++ "\n\n"],
          called := [] ++ ["Hello there."] }) ∧
    (mainLoop sampleConfig sampleTimeParse sampleServiceError sampleSecrets 0 initProc
        [sampleLine, sampleLine]).2.out = ["Name: \n\n", "Name: \n\n"] ∧
    (mainLoop sampleConfig sampleTimeParse sampleServiceError sampleSecrets 0 initProc
        [sampleLine, sampleLine]).1 = Status.running :=
  ⟨(mainStep_output sampleConfig sampleTimeParse sampleServiceOk sampleSecrets 0 initProc
      initProc sampleLine ⟨202210222013420000000, "003D", "Name", "Hello there."⟩
      "Name" "T" none
      { cache := [("Hello there.", "T")], secretIdx := 0,
        sent := [buildRequest sampleConfig ⟨"id0", "key0"⟩ "Hello there."] }
      (by decide) (by decide) (by decide) (by decide) (by decide)).1,
   by decide, by decide⟩

/-! ### Cache hits -/

/-- C17: on a text that is not empty and is a key of the cache, `translate` returns
the cached value and no error, and the state after the call is the state before it:
no request sent, cache and cursor as they were. Credentials, cursor and service are
arbitrary, so the cursor may be past the end of the list and the list may be empty. -/
theorem translate_cache_hit (cfg : ConfigStruct) (svc : Service) (secrets : List Secret)
    (text cached : String) (w : World) (hne : text ≠ "")
    (hhit : cacheLookup w.cache text = some cached) :
    translate cfg svc secrets text w = (Ret.value cached none, w) := by
  unfold translate
  exact translateFuel_hit cfg svc secrets text cached _ w hne hhit

/-- C17 with no credentials at all and the cursor at 7. -/
theorem translate_cache_hit_witness :
    translate sampleConfig sampleServiceQuota [] "Hello there."
        { cache := [("Hello there.", "T")], secretIdx := 7, sent := [] } =
      (Ret.value "T" none, { cache := [("Hello there.", "T")], secretIdx := 7, sent := [] }) :=
  translate_cache_hit sampleConfig sampleServiceQuota [] "Hello there." "T"
    { cache := [("Hello there.", "T")], secretIdx := 7, sent := [] } (by decide) (by decide)

/-! ### Where the entries of the cache come from -/

theorem cacheJustified_extend (cfg : ConfigStruct) (svc : Service) (secrets : List Secret)
    (w w1 : World) (hcache : w1.cache = w.cache) (hsent : w.sent <+: w1.sent)
    (h : CacheJustified cfg svc secrets w) : CacheJustified cfg svc secrets w1 := by
  intro k v hkv
  rw [hcache] at hkv
  obtain ⟨hk, before, secret, resp, hmem, hpre, hans, hok, htext⟩ := h k v hkv
  exact ⟨hk, before, secret, resp, hmem, hpre.trans hsent, hans, hok, htext⟩

theorem mem_cacheStore (cache : List (String × String)) (content result : String)
    (e : String × String) (h : e ∈ cacheStore cache content result) :
    e = (content, result) ∨ e ∈ cache := by
  unfold cacheStore at h
  rcases List.mem_cons.mp h with h | h
  · exact Or.inl h
  · exact Or.inr (List.mem_filter.mp h).1

/-- A call of `translate` keeps the entries of the cache justified. -/
theorem translateFuel_justified (cfg : ConfigStruct) (svc : Service)
    (secrets : List Secret) (content : String) :
    ∀ (fuel : Nat) (w : World), CacheJustified cfg svc secrets w →
      CacheJustified cfg svc secrets (translateFuel cfg svc secrets content fuel w).2 := by
  intro fuel
  induction fuel with
  | zero =>
    intro w h
    simpa [translateFuel] using h
  | succ fuel ih =>
    intro w h
    by_cases hne : content = ""
    · subst hne
      rw [translateFuel_empty]
      exact h
    cases hl : cacheLookup w.cache content with
    | some translated =>
      rw [translateFuel_hit cfg svc secrets content translated fuel w hne hl]
      exact h
    | none =>
      cases hs : secrets[w.secretIdx]? with
      | none =>
        rw [translateFuel_out_of_range cfg svc secrets content fuel w hne hl
          (List.getElem?_eq_none_iff.mp hs)]
        exact h
      | some secret =>
        have hsent : w.sent <+: w.sent ++ [buildRequest cfg secret content] :=
          List.prefix_append _ _
        have hkeep : CacheJustified cfg svc secrets
            { w with sent := w.sent ++ [buildRequest cfg secret content] } :=
          cacheJustified_extend cfg svc secrets w _ rfl hsent h
        rw [translateFuel_request cfg svc secrets content fuel w secret hne hl hs]
        cases ho : svc (w.sent ++ [buildRequest cfg secret content]) with
        | doError err => exact hkeep
        | readError err => exact hkeep
        | decodeError err => exact hkeep
        | response resp =>
          simp only
          by_cases hm : resp.ErrorMsg = ""
          · simp only [hm, ne_eq, not_true_eq_false, if_false]
            intro k v hkv
            rcases mem_cacheStore w.cache content resp.TranslatedText (k, v) hkv with hnew | hold
            · simp only [Prod.mk.injEq] at hnew
              obtain ⟨rfl, rfl⟩ := hnew
              exact ⟨hne, w.sent, secret, resp, List.getElem?_mem hs,
                List.prefix_refl _, ho, hm, rfl⟩
            · exact hkeep k v hold
          · simp only [hm, ne_eq, not_false_eq_true, if_true]
            by_cases hq : stringsContains resp.ErrorMsg "exceeded" = true
            · simp only [hq, if_true]
              exact ih _ (cacheJustified_extend cfg svc secrets w _ rfl hsent h)
            · simp only [hq]
              exact hkeep

theorem translateMany_justified (cfg : ConfigStruct) (svc : Service)
    (secrets : List Secret) :
    ∀ (texts : List String) (w : World), CacheJustified cfg svc secrets w →
      CacheJustified cfg svc secrets (translateMany cfg svc secrets w texts) := by
  intro texts
  induction texts with
  | nil =>
    intro w h
    exact h
  | cons text rest ih =>
    intro w h
    unfold translateMany
    have h1 := translateFuel_justified cfg svc secrets text
      (secrets.length - w.secretIdx + 1) w h
    change CacheJustified cfg svc secrets (translate cfg svc secrets text w).2 at h1
    generalize translate cfg svc secrets text w = r at h1
    obtain ⟨ret, w1⟩ := r
    cases ret with
    | noFuel => exact h1
    | panic => exact h1
    | value t e => exact ih w1 h1

theorem emitLog_justified (cfg : ConfigStruct) (svc : Service) (secrets : List Secret)
    (l : Log) (p : Proc) (h : CacheJustified cfg svc secrets p.world) :
    CacheJustified cfg svc secrets (emitLog cfg svc secrets l p).2.world := by
  have hcall : ∀ (content : String) (q : Proc), CacheJustified cfg svc secrets q.world →
      CacheJustified cfg svc secrets (callTranslate cfg svc secrets content q).2.world :=
    fun content q hq => translateFuel_justified cfg svc secrets content _ q.world hq
  have hactor : CacheJustified cfg svc secrets (actorStep cfg svc secrets l p).2.2.world := by
    unfold actorStep
    by_cases ha : cfg.TranslateActorName = true
    · simp only [ha, if_true]
      have hc := hcall l.ActorName p h
      generalize callTranslate cfg svc secrets l.ActorName p = r at hc
      obtain ⟨ret, p1⟩ := r
      cases ret with
      | noFuel => exact hc
      | panic => exact hc
      | value t e => cases e <;> exact hc
    · simpa [ha] using h
  unfold emitLog
  generalize actorStep cfg svc secrets l p = r at hactor
  obtain ⟨st, actor, p1⟩ := r
  cases st with
  | running =>
    simp only
    unfold contentStep
    have hc := hcall l.Content p1 hactor
    generalize callTranslate cfg svc secrets l.Content p1 = r2 at hc
    obtain ⟨ret, p2⟩ := r2
    cases ret <;> exact hc
  | panicked => exact hactor
  | noFuel => exact hactor

theorem mainLoop_justified (cfg : ConfigStruct) (timeParse : String → Except String Int)
    (svc : Service) (secrets : List Secret) (now : Int) :
    ∀ (lines : List String) (p : Proc), CacheJustified cfg svc secrets p.world →
      CacheJustified cfg svc secrets
        (mainLoop cfg timeParse svc secrets now p lines).2.world := by
  intro lines
  induction lines with
  | nil =>
    intro p h
    exact h
  | cons line rest ih =>
    intro p h
    unfold mainLoop
    have h1 : CacheJustified cfg svc secrets
        (mainStep cfg timeParse svc secrets now p line).2.world := by
      unfold mainStep
      cases parseLine timeParse line with
      | panic => exact h
      | done res =>
        cases res with
        | error err => exact h
        | ok l =>
          simp only
          by_cases hts : l.Timestamp < now
          · simpa [hts] using h
          · by_cases hf : foundChatCode cfg.TargetChatCodes l.LogCode = true
            · simp only [hts, if_false, hf, Bool.not_true]
              exact emitLog_justified cfg svc secrets l p h
            · simpa [hts, hf] using h
    generalize mainStep cfg timeParse svc secrets now p line = r at h1
    obtain ⟨st, p1⟩ := r
    cases st with
    | running => exact ih p1 h1
    | panicked => exact h1
    | noFuel => exact h1

/-- C18: from the state of a process that has just started (empty cache, cursor 0,
nothing sent), after any sequence of calls of `translate`, on any texts and with any
service, no entry of the cache has the empty string as its key, the empty string is
not found in it, and every entry `(k, v)` goes back to a request for the text `k`
among the requests sent, answered with a response without error message whose
translated text is `v`. The same holds after the loop of `main` over any lines. -/
theorem cache_entries_justified (cfg : ConfigStruct) (svc : Service)
    (secrets : List Secret) (texts : List String) :
    CacheJustified cfg svc secrets (translateMany cfg svc secrets initWorld texts) ∧
    (∀ v, ("", v) ∉ (translateMany cfg svc secrets initWorld texts).cache) ∧
    cacheLookup (translateMany cfg svc secrets initWorld texts).cache "" = none ∧
    (∀ (timeParse : String → Except String Int) (now : Int) (lines : List String),
      CacheJustified cfg svc secrets
        (mainLoop cfg timeParse svc secrets now initProc lines).2.world) := by
  have hinit : CacheJustified cfg svc secrets initWorld := by
    intro k v hkv
    simp [initWorld] at hkv
  have h := translateMany_justified cfg svc secrets texts initWorld hinit
  have hno : ∀ v, ("", v) ∉ (translateMany cfg svc secrets initWorld texts).cache :=
    fun v hv => (h "" v hv).1 rfl
  refine ⟨h, hno, ?_, fun timeParse now lines =>
    mainLoop_justified cfg timeParse svc secrets now lines initProc hinit⟩
  cases hl : cacheLookup (translateMany cfg svc secrets initWorld texts).cache "" with
  | none => rfl
  | some v =>
    exfalso
    unfold cacheLookup at hl
    obtain ⟨l1, l2, heq, _⟩ := List.lookup_eq_some_iff.mp hl
    exact hno v (by rw [heq]; simp)

/-! ### The same text twice -/

/-- A call of `translate` on a text that is not empty and not cached, when it returns
without error, has sent a request. -/
theorem translateFuel_miss_sends (cfg : ConfigStruct) (svc : Service)
    (secrets : List Secret) (content : String) (hne : content ≠ "") :
    ∀ (fuel : Nat) (w w1 : World) (t : String), cacheLookup w.cache content = none →
      translateFuel cfg svc secrets content fuel w = (Ret.value t none, w1) →
      w.sent.length < w1.sent.length := by
  intro fuel
  induction fuel with
  | zero =>
    intro w w1 t _ h
    simp [translateFuel] at h
  | succ fuel ih =>
    intro w w1 t hl h
    cases hs : secrets[w.secretIdx]? with
    | none =>
      rw [translateFuel_out_of_range cfg svc secrets content fuel w hne hl
        (List.getElem?_eq_none_iff.mp hs)] at h
      simp at h
    | some secret =>
      rw [translateFuel_request cfg svc secrets content fuel w secret hne hl hs] at h
      cases ho : svc (w.sent ++ [buildRequest cfg secret content]) with
      | doError err => rw [ho] at h; simp at h
      | readError err => rw [ho] at h; simp at h
      | decodeError err => rw [ho] at h; simp at h
      | response resp =>
        rw [ho] at h
        simp only at h
        by_cases hm : resp.ErrorMsg = ""
        · simp only [hm, ne_eq, not_true_eq_false, if_false, Prod.mk.injEq,
            Ret.value.injEq, and_true] at h
          obtain ⟨_, rfl⟩ := h
          simp
        · simp only [hm, ne_eq, not_false_eq_true, if_true] at h
          by_cases hq : stringsContains resp.ErrorMsg "exceeded" = true
          · simp only [hq, if_true] at h
            have := ih { w with sent := w.sent ++ [buildRequest cfg secret content],
                                secretIdx := w.secretIdx + 1 } w1 t hl h
            simp only [List.length_append, List.length_singleton] at this
            omega
          · simp [hq] at h

/-- C6, as stated, fails. With a service that loses the answer to the first request
and answers the second, two consecutive calls on the same text send two requests
without any rotation of credentials and return different results, and the example
line of `main.go` read twice leads to two requests and two different outputs. With a
service that answers every request, the same line read twice leads to two requests
when actor-name translation is on, to none when the content was in the cache before,
and two lines with the same content and different actor names give different
outputs. -/
theorem translate_twice_two_requests :
    ¬ (∀ (cfg : ConfigStruct) (svc : Service) (secrets : List Secret) (text : String)
        (w : World), text ≠ "" →
        (translate cfg svc secrets text (translate cfg svc secrets text w).2).2.secretIdx
          = w.secretIdx →
        (translate cfg svc secrets text (translate cfg svc secrets text w).2).2.sent.length
          ≤ w.sent.length + 1 ∧
        (translate cfg svc secrets text (translate cfg svc secrets text w).2).1
          = (translate cfg svc secrets text w).1) ∧
    ((mainLoop sampleConfig sampleTimeParse sampleServiceFlaky sampleSecrets 0 initProc
        [sampleLine, sampleLine]).2.world.sent.length = 2 ∧
     (mainLoop sampleConfig sampleTimeParse sampleServiceFlaky sampleSecrets 0 initProc
        [sampleLine, sampleLine]).2.out = ["Name: \n\n", "Name: T\n\n"]) ∧
    (mainLoop { sampleConfig with TranslateActorName := true } sampleTimeParse
        sampleServiceOk sampleSecrets 0 initProc
        [sampleLine, sampleLine]).2.world.sent.length = 2 ∧
    (mainLoop sampleConfig sampleTimeParse sampleServiceOk sampleSecrets 0
        { initProc with world := { initWorld with cache := [("Hello there.", "T")] } }
        [sampleLine, sampleLine]).2.world.sent.length = 0 ∧
    (mainLoop sampleConfig sampleTimeParse sampleServiceOk sampleSecrets 0 initProc
        [sampleLine,
         "01|2022-10-22T20:13:43.0000000+09:00|003D|Other|Hello there.|abc124"]).2.out =
      ["Name: T\n\n", "Other: T\n\n"] := by
  refine ⟨?_, by decide, by decide, by decide, by decide⟩
  intro h
  have h1 := h sampleConfig sampleServiceFlaky sampleSecrets "Hello there." initWorld
    (by decide) (by decide)
  revert h1
  decide

/-- C6, amended: when the first of two consecutive calls of `translate` on the same
non-empty text returns without error, the second call returns the same translation
without error and leaves the state as the first call left it (it sends no request:
a cache hit); when moreover the cursor is where it was before the first call, at
most one request was sent in the two calls together, and exactly one when the text
was not cached before. In particular, with actor-name translation off, two
qualifying lines with that text as their content, read one after the other from the
state before the first call, are both written, each with its actor name and the same
translation, by those two calls and no other: the state after the two lines is the
state after the first call. -/
theorem translate_twice (cfg : ConfigStruct) (svc : Service) (secrets : List Secret)
    (text : String) (w w1 : World) (t : String) (hne : text ≠ "")
    (hfirst : translate cfg svc secrets text w = (Ret.value t none, w1)) :
    translate cfg svc secrets text w1 = (Ret.value t none, w1) ∧
    (w1.secretIdx = w.secretIdx → w1.sent.length ≤ w.sent.length + 1) ∧
    (w1.secretIdx = w.secretIdx → cacheLookup w.cache text = none →
      w1.sent.length = w.sent.length + 1) ∧
    (∀ (timeParse : String → Except String Int) (now : Int) (p : Proc)
        (line1 line2 : String) (l1 l2 : Log),
      cfg.TranslateActorName = false → p.world = w →
      parseLine timeParse line1 = Run.done (Except.ok l1) →
      parseLine timeParse line2 = Run.done (Except.ok l2) →
      now ≤ l1.Timestamp → now ≤ l2.Timestamp →
      l1.LogCode ∈ cfg.TargetChatCodes → l2.LogCode ∈ cfg.TargetChatCodes →
      l1.Content = text → l2.Content = text →
      mainLoop cfg timeParse svc secrets now p [line1, line2] =
        (Status.running,
          { world := w1
            out := p.out ++ [l1.ActorName ++ ": " ++ t ++ "\n\n",
              l2.ActorName ++ ": " ++ t ++ "\n\n"]
            called := p.called ++ [text, text] })) := by
  have hc := translateFuel_success_cached cfg svc secrets text hne _ w w1 t hfirst
  have hsecond : translate cfg svc secrets text w1 = (Ret.value t none, w1) :=
    translateFuel_hit cfg svc secrets text t _ w1 hne hc
  have hle : w1.secretIdx = w.secretIdx → w1.sent.length ≤ w.sent.length + 1 := by
    intro hidx
    have hb := (translateFuel_sent_le cfg svc secrets text
      (secrets.length - w.secretIdx + 1) w).2
    unfold translate at hfirst
    rw [hfirst] at hb
    simp only at hb
    omega
  refine ⟨hsecond, hle, ?_, ?_⟩
  · intro hidx hmiss
    have hlt := translateFuel_miss_sends cfg svc secrets text hne _ w w1 t hmiss hfirst
    have := hle hidx
    omega
  · intro timeParse now p line1 line2 l1 l2 hoff hw hp1 hp2 hts1 hts2 hc1 hc2 hx1 hx2
    subst hw
    have hstep1 : mainStep cfg timeParse svc secrets now p line1 =
        (Status.running,
          { world := w1, out := p.out ++ [l1.ActorName ++ ": " ++ t ++ "\n\n"],
            called := p.called ++ [text] }) := by
      rw [mainStep_accepted cfg timeParse svc secrets now p line1 l1 hp1 hts1 hc1,
        emitLog_running cfg svc secrets l1 p p l1.ActorName
          (actorStep_off cfg svc secrets l1 p hoff),
        contentStep_value cfg svc secrets l1 l1.ActorName p t none w1
          (by rw [hx1]; exact hfirst), hx1]
    have hstep2 : mainStep cfg timeParse svc secrets now
        { world := w1, out := p.out ++ [l1.ActorName ++ ": " ++ t ++ "\n\n"],
          called := p.called ++ [text] } line2 =
        (Status.running,
          { world := w1
            out := p.out ++ [l1.ActorName ++ ": " ++ t ++ "\n\n",
              l2.ActorName ++ ": " ++ t ++ "\n\n"]
            called := p.called ++ [text, text] }) := by
      rw [mainStep_accepted cfg timeParse svc secrets now _ line2 l2 hp2 hts2 hc2,
        emitLog_running cfg svc secrets l2 _ _ l2.ActorName
          (actorStep_off cfg svc secrets l2 _ hoff),
        contentStep_value cfg svc secrets l2 l2.ActorName _ t none w1
          (by rw [hx2]; exact hsecond), hx2]
      simp
    rw [mainLoop_cons_running cfg timeParse svc secrets now p _ line1 [line2] hstep1,
      mainLoop_cons_running cfg timeParse svc secrets now _ _ line2 [] hstep2]
    rfl

/-- C6, amended, on a concrete run: a first call that is answered with `T`, then a
second call on the same text; and the example line of `main.go` read twice. -/
theorem translate_twice_witness :
    translate sampleConfig sampleServiceOk sampleSecrets "Hello there." initWorld
      = (Ret.value "T" none,
        { cache := [("Hello there.", "T")], secretIdx := 0,
          sent := [buildRequest sampleConfig ⟨"id0", "key0"⟩ "Hello there."] }) ∧
    translate sampleConfig sampleServiceOk sampleSecrets "Hello there."
        { cache := [("Hello there.", "T")], secretIdx := 0,
          sent := [buildRequest sampleConfig ⟨"id0", "key0"⟩ "Hello there."] }
      = (Ret.value "T" none,
        { cache := [("Hello there.", "T")], secretIdx := 0,
          sent := [buildRequest sampleConfig ⟨"id0", "key0"⟩ "Hello there."] }) ∧
    [buildRequest sampleConfig ⟨"id0", "key0"⟩ "Hello there."].length
      ≤ initWorld.sent.length + 1 ∧
    [buildRequest sampleConfig ⟨"id0", "key0"⟩ "Hello there."].length
      = initWorld.sent.length + 1 ∧
    mainLoop sampleConfig sampleTimeParse sampleServiceOk sampleSecrets 0 initProc
        [sampleLine, sampleLine] =
      (Status.running,
        { world :=
            { cache := [("Hello there.", "T")], secretIdx := 0,
              sent := [buildRequest sampleConfig ⟨"id0", "key0"⟩ "Hello there."] }
          out := [] ++ ["Name" ++ ": " ++ "T" ++ "\n\n", "Name" ++ ": " ++ "T" ++ "\n\n"]
          called := [] ++ ["Hello there.", "Hello there."] }) :=
  ⟨by decide,
   (translate_twice sampleConfig sampleServiceOk sampleSecrets "Hello there." initWorld
      { cache := [("Hello there.", "T")], secretIdx := 0,
        sent := [buildRequest sampleConfig ⟨"id0", "key0"⟩ "Hello there."] }
      "T" (by decide) (by decide)).1,
   (translate_twice sampleConfig sampleServiceOk sampleSecrets "Hello there." initWorld
      { cache := [("Hello there.", "T")], secretIdx := 0,
        sent := [buildRequest sampleConfig ⟨"id0", "key0"⟩ "Hello there."] }
      "T" (by decide) (by decide)).2.1 rfl,
   (translate_twice sampleConfig sampleServiceOk sampleSecrets "Hello there." initWorld
      { cache := [("Hello there.", "T")], secretIdx := 0,
        sent := [buildRequest sampleConfig ⟨"id0", "key0"⟩ "Hello there."] }
      "T" (by decide) (by decide)).2.2.1 rfl (by decide),
   (translate_twice sampleConfig sampleServiceOk sampleSecrets "Hello there." initWorld
      { cache := [("Hello there.", "T")], secretIdx := 0,
        sent := [buildRequest sampleConfig ⟨"id0", "key0"⟩ "Hello there."] }
      "T" (by decide) (by decide)).2.2.2 sampleTimeParse 0 initProc sampleLine sampleLine
      ⟨202210222013420000000, "003D", "Name", "Hello there."⟩
      ⟨202210222013420000000, "003D", "Name", "Hello there."⟩
      rfl rfl (by decide) (by decide) (by decide) (by decide) (by decide) (by decide)
      rfl rfl⟩

/-! ### Accepted lines and exhausted credentials -/

/-- C14 on the code: the example line of `main.go` is accepted (it parses, is not
before the start instant 0, and its code is a target code), the one credential is out
of quota. With actor-name translation off, the call of `translate` on the content
panics and nothing is written; with it on, the call on the actor name panics, so that
no actor label is chosen, `translate` is not called on the content and nothing is
written. -/
theorem actor_label_exhausted :
    parseLine sampleTimeParse sampleLine =
      Run.done (Except.ok ⟨202210222013420000000, "003D", "Name", "Hello there."⟩) ∧
    "003D" ∈ sampleConfig.TargetChatCodes ∧
    mainStep sampleConfig sampleTimeParse sampleServiceQuota [⟨"id0", "key0"⟩] 0 initProc
        sampleLine =
      (Status.panicked,
        { world :=
            { cache := [], secretIdx := 1,
              sent := [buildRequest sampleConfig ⟨"id0", "key0"⟩ "Hello there."] }
          out := []
          called := ["Hello there."] }) ∧
    mainStep { sampleConfig with TranslateActorName := true } sampleTimeParse
        sampleServiceQuota [⟨"id0", "key0"⟩] 0 initProc sampleLine =
      (Status.panicked,
        { world :=
            { cache := [], secretIdx := 1,
              sent := [buildRequest sampleConfig ⟨"id0", "key0"⟩ "Name"] }
          out := []
          called := ["Name"] }) := by
  decide

/-- C15 on the code: the example line of `main.go`, accepted, read twice by a process
whose two credentials are both out of quota. The call of `translate` on the content of
the first line sends one request per credential and panics with the cursor at 2;
nothing is written for the line, and the loop does not go on to the second line. -/
theorem mainStep_output_exhausted :
    mainStep sampleConfig sampleTimeParse sampleServiceQuota sampleSecrets 0 initProc
        sampleLine =
      (Status.panicked,
        { world :=
            { cache := [], secretIdx := 2,
              sent := [buildRequest sampleConfig ⟨"id0", "key0"⟩ "Hello there.",
                buildRequest sampleConfig ⟨"id1", "key1"⟩ "Hello there."] }
          out := []
          called := ["Hello there."] }) ∧
    mainLoop sampleConfig sampleTimeParse sampleServiceQuota sampleSecrets 0 initProc
        [sampleLine, sampleLine] =
      (Status.panicked,
        { world :=
            { cache := [], secretIdx := 2,
              sent := [buildRequest sampleConfig ⟨"id0", "key0"⟩ "Hello there.",
                buildRequest sampleConfig ⟨"id1", "key1"⟩ "Hello there."] }
          out := []
          called := ["Hello there."] }) := by
  decide

end ChatTranslator
